import Mathlib

/-!
Verification development for the AutoDev-AI repository.

The repository implements an iterative build-verify-repair orchestrator:
LangGraph state machine (`app/graph/flow.py`, `app/graph/state.py`),
generation agents (`app/agents/architect.py`, `coder.py`, `tester.py`,
`debugger.py`) and a sandbox runner (`setup_and_run_tests` in
`app/agents/tester.py`).

Python strings are modelled as `List Char` (`Str`), Python dicts as
insertion-ordered association lists with unique keys (`Dict`), and the
external process/LLM boundary as explicit oracles.  Machine integers do not
occur on the verified paths (iteration counters are small naturals, process
exit codes are mathematical integers).
-/

namespace AutoDev

/-- Python strings, modelled as lists of characters. -/
abbrev Str := List Char

/-- Python dicts from path to content: insertion-ordered association lists. -/
abbrev Dict := List (Str × Str)

/-- Whitespace recognised by Python's `str.strip` / regex `\s`
(ASCII fragment; the source only ever handles ASCII output framing). -/
def isSpace (c : Char) : Bool :=
  c = ' ' || c = '\t' || c = '\n' || c = '\r' || c = '\x0b' || c = '\x0c'

/-- The literal two-character escape sequence for newline: backslash then `n`
(Python's `"\\n"`). -/
def escNL : Str := ['\\', 'n']

/-- The actual newline character. -/
def nlChar : Char := '\n'

/-- Boolean test that `pat` begins the list `s` (Python `startswith` /
anchored match). -/
def isPre : Str → Str → Bool
  | [], _ => true
  | _ :: _, [] => false
  | a :: l, b :: m => a = b && isPre l m

/-- Boolean substring test: Python's `pat in s`. -/
def hasSub (pat : Str) : Str → Bool
  | [] => isPre pat []
  | c :: t => isPre pat (c :: t) || hasSub pat t

/-- Propositional substring occurrence. -/
def occursIn (pat s : Str) : Prop := ∃ l r, s = l ++ pat ++ r

/-- Consume the literal `lit` at the head of `s` (part of the regex engine
for the anchored literal portions of the extraction patterns). -/
def expectStr : Str → Str → Option Str
  | [], s => some s
  | _ :: _, [] => none
  | a :: l, b :: m => if a = b then expectStr l m else none

/-- Split `s` at the first occurrence of `pat`: returns the text before the
occurrence and the text after it (non-greedy search, as in `(.*?)pat`). -/
def splitAtFirst (pat : Str) : Str → Option (Str × Str)
  | [] => if isPre pat [] then some ([], []) else none
  | c :: t =>
    if isPre pat (c :: t) then some ([], (c :: t).drop pat.length)
    else
      match splitAtFirst pat t with
      | some pr => some (c :: pr.1, pr.2)
      | none => none

/-- Python `str.strip()`: drop leading and trailing whitespace. -/
def pyStrip (s : Str) : Str :=
  ((s.dropWhile isSpace).reverse.dropWhile isSpace).reverse

/-- Python slice `s[1:-1]`: drop the first and the last character. -/
def strip1 (s : Str) : Str := (s.drop 1).dropLast

/-- Python `s.startswith(q)` for a single character `q`. -/
def startsWithCh (q : Char) : Str → Bool
  | [] => false
  | c :: _ => c = q

/-- Python `s.endswith(q)` for a single character `q`. -/
def endsWithCh (q : Char) (s : Str) : Bool := startsWithCh q s.reverse

/-- Python `s.replace(b ++ x, y)` for a two-character pattern and a
one-character replacement: single left-to-right pass, non-overlapping. -/
def pyReplace2 (b x y : Char) : Str → Str
  | [] => []
  | [c] => [c]
  | c :: d :: t =>
    if c = b ∧ d = x then y :: pyReplace2 b x y t
    else c :: pyReplace2 b x y (d :: t)

/-- Python `str.lower` (character-wise, as used on framework names). -/
def toLowerStr (s : Str) : Str := s.map Char.toLower

/-- Python `"\n".join(parts)` generalised to an arbitrary separator. -/
def strJoin (sep : Str) : List Str → Str
  | [] => []
  | [x] => x
  | x :: y :: t => x ++ sep ++ strJoin sep (y :: t)

/-- The backtick character (kept out of literals). -/
def backtickCh : Char := Char.ofNat 96

/-- Lower-case ASCII letter test, for the fenced-code-block language tag. -/
def isLowerAlpha (c : Char) : Bool := 'a' ≤ c && c ≤ 'z'

/-! ## Python dict model -/

/-- Keys of a dict, in insertion order. -/
def dkeys (d : Dict) : List Str := d.map Prod.fst

/-- Lookup in a dict (first entry wins; well-formed dicts have unique keys). -/
def dlookup (k : Str) : Dict → Option Str
  | [] => none
  | p :: t => if p.1 = k then some p.2 else dlookup k t

/-- Membership test for a key (Python `k in d`). -/
def containsKey (d : Dict) (k : Str) : Bool := d.any (fun p => p.1 = k)

/-- Python `d[k] = v`: overwrite in place if the key exists (keeping its
position), otherwise append a fresh entry at the end. -/
def dictInsert (d : Dict) (k v : Str) : Dict :=
  if containsKey d k then d.map (fun p => if p.1 = k then (k, v) else p)
  else d ++ [(k, v)]

/-- Python `{**base, **updates}` (and equally `base.update(updates)` run on a
copy): every entry of `updates` written over `base`, left to right. -/
def dictExtend (base updates : Dict) : Dict :=
  updates.foldl (fun acc p => dictInsert acc p.1 p.2) base

/-- The Artifact Store merge operation: `{**base, **updates}` as used at
`debugger.py` line 138 and `tester.py` line 233. -/
def pyMerge (base updates : Dict) : Dict := dictExtend base updates

/-! ## Raw LLM output and coercion to a single string

`response.content` in LangChain is `Union[str, List]`; every parser in the
repository first coerces it: a list is joined element-wise through `str`,
any other value is passed through `str`. -/

/-- A Python value as seen by `str()`: either a genuine string or some other
object carrying its textual representation. -/
inductive PyVal
  | pstr (s : Str)
  | other (rep : Str)

/-- Python `str(v)`. -/
def pyToStr : PyVal → Str
  | .pstr s => s
  | .other r => r

/-- The possible shapes of `response.content` handed to the extractors. -/
inductive ParserInput
  | str (s : Str)
  | list (items : List PyVal)
  | other (rep : Str)

/-- The coercion step shared by `parse_xml_output`, `parse_tester_output`
and `parse_debugger_output`:
`if isinstance(text, list): text = "".join(str(item) for item in text)`;
`if not isinstance(text, str): text = str(text)`. -/
def coerce : ParserInput → Str
  | .str s => s
  | .list items => (items.map pyToStr).foldr (fun a b => a ++ b) []
  | .other r => r

/-! ## The tag-based block extractor

Model of `re.findall(r'<file\s+path="([^"]+)">\s*(.*?)\s*</file>', text,
re.DOTALL)`: at each position the engine attempts the anchored pattern; on
success it emits the pair and resumes after the match.  The leading `\s+`
is greedy but followed by a non-space literal, `[^"]+` is greedy but
followed by the quote it excludes, and `\s*(.*?)\s*</file>` captures the
whitespace-trimmed text before the earliest `</file>`; so the
deterministic reading below is equivalent to the backtracking regex. -/

/-- Literal `<file` of the opening tag. -/
def fileOpenTag : Str := ['<', 'f', 'i', 'l', 'e']

/-- Literal `path="`. -/
def pathAttr : Str := ['p', 'a', 't', 'h', '=', '"']

/-- Literal `">` closing the opening tag. -/
def quoteGt : Str := ['"', '>']

/-- Literal `</file>` of the closing tag. -/
def fileCloseTag : Str := ['<', '/', 'f', 'i', 'l', 'e', '>']

/-- Attempt the full block pattern anchored at the head of `s`.  On success
returns the captured path, the trimmed captured content, and the rest of
the text after `</file>`. -/
def tryMatchAt (s : Str) : Option (Str × Str × Str) :=
  match expectStr fileOpenTag s with
  | none => none
  | some r1 =>
    match r1 with
    | [] => none
    | c :: _ =>
      if isSpace c then
        match expectStr pathAttr (r1.dropWhile isSpace) with
        | none => none
        | some r2 =>
          match r2.takeWhile (fun ch => ! (ch = '"')) with
          | [] => none
          | p :: ps =>
            match expectStr quoteGt (r2.drop (p :: ps).length) with
            | none => none
            | some r3 =>
              match splitAtFirst fileCloseTag r3 with
              | none => none
              | some pr => some (p :: ps, pyStrip pr.1, pr.2)
      else none

/-- Fuelled scan of the whole text (the fuel is the text length, which
bounds the number of scan positions; each consumed match advances at least
one character). -/
def findBlocksAux : Nat → Str → List (Str × Str)
  | 0, _ => []
  | _ + 1, [] => []
  | fuel + 1, c :: t =>
    match tryMatchAt (c :: t) with
    | some m => (m.1, m.2.1) :: findBlocksAux fuel m.2.2
    | none => findBlocksAux fuel t

/-- All `(path, trimmed content)` pairs of the text, in document order. -/
def findBlocks (s : Str) : List (Str × Str) := findBlocksAux s.length s

/-! ## Shared sanitisation passes -/

/-- The escaped-newline repair common to `coder.py` lines 134-137 and
`tester.py` lines 57-59: `if "\\n" in content and "\n" not in content:
content = content.replace("\\n", "\n")`. -/
def fixNewlines (t : Str) : Str :=
  if hasSub escNL t && ! hasSub [nlChar] t then pyReplace2 '\\' 'n' nlChar t
  else t

/-- Quote stripping of `coder.py` lines 129-132: one layer of straight
double quotes, or else one layer of straight single quotes. -/
def stripQuotesCoder (t : Str) : Str :=
  if startsWithCh '"' t && endsWithCh '"' t then strip1 t
  else if startsWithCh '\'' t && endsWithCh '\'' t then strip1 t
  else t

/-- Quote stripping of `tester.py` lines 54-55: straight double quotes
only. -/
def stripQuotesTester (t : Str) : Str :=
  if startsWithCh '"' t && endsWithCh '"' t then strip1 t else t

/-- Quote unescaping of `tester.py` line 63:
`content.replace("\\'", "'").replace('\\"', '"')`. -/
def unescQuotes (t : Str) : Str :=
  pyReplace2 '\\' '"' '"' (pyReplace2 '\\' '\'' '\'' t)

namespace Coder

/-- `sanitize_content` of `app/agents/coder.py` lines 125-138. -/
def sanitize_content (content : Str) : Str :=
  fixNewlines (stripQuotesCoder (pyStrip content))

/-- `parse_xml_output` of `app/agents/coder.py` lines 140-154. -/
def parse_xml_output (text : ParserInput) : Dict :=
  (findBlocks (coerce text)).foldl
    (fun files m => dictInsert files m.1 (sanitize_content m.2)) []

end Coder

namespace Tester

/-- `sanitize_content` of `app/agents/tester.py` lines 50-65. -/
def sanitize_content (content : Str) : Str :=
  unescQuotes (fixNewlines (stripQuotesTester (pyStrip content)))

/-- `parse_tester_output` of `app/agents/tester.py` lines 67-92: the file
map plus the declared framework (default `pytest`).  The framework regex
`<framework>(.*?)</framework>` succeeds exactly when some `</framework>`
follows the first `<framework>`. -/
def parse_tester_output (text : ParserInput) : Dict × Str :=
  let s := coerce text
  let files := (findBlocks s).foldl
    (fun fs m => dictInsert fs m.1 (sanitize_content m.2)) []
  let framework :=
    match splitAtFirst "<framework>".data s with
    | none => "pytest".data
    | some pr =>
      match splitAtFirst "</framework>".data pr.2 with
      | none => "pytest".data
      | some pr2 => pyStrip pr2.1
  (files, framework)

end Tester

namespace Debugger

/-- Model of `re.sub(r'^```[a-z]*\n', '', content)`: remove a leading
fenced-code-block marker (the anchored pattern can only match once). -/
def stripFenceOpen (c : Str) : Str :=
  match c with
  | a :: b :: d :: rest =>
    if a = backtickCh ∧ b = backtickCh ∧ d = backtickCh then
      match rest.dropWhile isLowerAlpha with
      | e :: r => if e = nlChar then r else c
      | [] => c
    else c
  | _ => c

/-- Model of `re.sub(r'\n```$', '', content)` on already-stripped content
(no trailing newline, so `$` is the end of the string). -/
def stripFenceClose (c : Str) : Str :=
  match c.reverse with
  | a :: b :: d :: e :: rest =>
    if a = backtickCh ∧ b = backtickCh ∧ d = backtickCh ∧ e = nlChar then
      rest.reverse
    else c
  | _ => c

/-- The per-content clean-up in the loop of `parse_debugger_output`
(`debugger.py` lines 86-96): strip, remove markdown fences, strip one
layer of straight double quotes. -/
def sanitizeBlock (content : Str) : Str :=
  let c1 := stripFenceClose (stripFenceOpen (pyStrip content))
  if startsWithCh '"' c1 && endsWithCh '"' c1 then strip1 c1 else c1

/-- `parse_debugger_output` of `app/agents/debugger.py` lines 64-98 (the
`<plan>` block is only logged and does not affect the result). -/
def parse_debugger_output (text : ParserInput) : Dict :=
  let t0 := coerce text
  let t := if hasSub escNL t0 && ! hasSub [nlChar] t0 then
    pyReplace2 '\\' 'n' nlChar t0 else t0
  (findBlocks t).foldl
    (fun files m => dictInsert files m.1 (sanitizeBlock m.2)) []

end Debugger

/-! ## Project State and the agent functions

`AgentState` (`app/graph/state.py`) plus the `debug_iterations` counter
seeded to `0` by the initial state in `app/main.py`.  The `user_input` and
`status` channels never influence the verified control flow and are
omitted.  LangGraph channels have no reducer here, so a key returned by a
node replaces the channel value; keys a node does not return are left
unchanged (modelled by `Option` fields in the update records). -/

/-- The `test_results` dict written by the tester agent. -/
structure TestResults where
  tests_passed : Bool
  output : Str
  command : Str
deriving DecidableEq

/-- The shared graph state. -/
structure GState where
  plan : List Str
  tech_decisions : Dict
  files : Dict
  test_results : Option TestResults
  errors : List Str
  debug_iterations : Nat
deriving DecidableEq

/-- `initial_state` of `app/main.py` lines 76-84 (empty `test_results`
dict modelled as `none`: `results.get("tests_passed", False)` is falsy on
it either way). -/
def initState : GState :=
  { plan := [], tech_decisions := [], files := [], test_results := none
    errors := [], debug_iterations := 0 }

/-- `results.get("tests_passed", False)` of `flow.py` line 20. -/
def getPassed (s : GState) : Bool :=
  match s.test_results with
  | none => false
  | some r => r.tests_passed

namespace Architect

/-- The JSON object returned by the architect chain (fields may be absent,
`response.get` supplies the defaults). -/
structure ArchOut where
  plan : Option (List Str)
  tech_decisions : Option Dict

/-- Update returned by the architect agent. -/
structure ArchUpdate where
  plan : List Str
  tech_decisions : Dict

/-- Fallback plan of `architect.py` line 83. -/
def fallbackPlan : List Str :=
  ["1. Initialize project structure".data, "2. Create main.py".data]

/-- Fallback stack of `architect.py` line 84. -/
def fallbackTech : Dict :=
  [("language".data, "python".data), ("framework".data, "fastapi".data),
   ("database".data, "sqlite".data), ("orm".data, "sqlalchemy".data)]

/-- `architect_agent` of `app/agents/architect.py` lines 54-85, as a
function of the outcome of the generation call. -/
def architect_agent (resp : Except Str ArchOut) : ArchUpdate :=
  match resp with
  | .ok r => { plan := r.plan.getD [], tech_decisions := r.tech_decisions.getD [] }
  | .error _ => { plan := fallbackPlan, tech_decisions := fallbackTech }

end Architect

namespace Coder

/-- Update returned by the coder agent: either a fresh `files` value or a
fresh `errors` value, never both. -/
structure CoderUpdate where
  files : Option Dict
  errors : Option (List Str)
deriving DecidableEq

/-- `coder_agent` of `app/agents/coder.py` lines 159-202 as a function of
the generation call outcome: on success it returns `{"files": files_dict}`
(replacing the whole channel), on failure `{"errors": [...]}`. -/
def coder_agent (resp : Except Str ParserInput) : CoderUpdate :=
  match resp with
  | .ok content => { files := some (parse_xml_output content), errors := none }
  | .error e =>
    { files := none, errors := some [("Coder Agent failed: ".data ++ e)] }

end Coder

namespace Tester

/-- Update returned by the tester agent. -/
structure TesterUpdate where
  files : Option Dict
  test_results : TestResults
deriving DecidableEq

/-- `tester_agent` of `app/agents/tester.py` lines 206-249 as a function of
the generation call outcome and of the sandbox run outcome (an exception
raised anywhere inside the `try` block is absorbed into a failed verdict
whose output is the exception text). -/
def tester_agent (resp : Except Str ParserInput)
    (sandbox : Except Str (Bool × Str)) (s : GState) : TesterUpdate :=
  match resp with
  | .error e =>
    { files := none
      test_results := { tests_passed := false, output := e, command := "unknown".data } }
  | .ok content =>
    let pr := parse_tester_output content
    let all_files := pyMerge s.files pr.1
    match sandbox with
    | .error e =>
      { files := none
        test_results := { tests_passed := false, output := e, command := "unknown".data } }
    | .ok v =>
      { files := some all_files
        test_results :=
          { tests_passed := v.1, output := v.2
            command := "Automated ".data ++ pr.2 ++ " in venv".data } }

end Tester

namespace Debugger

/-- Update returned by the debugger agent. -/
structure DbgUpdate where
  files : Option Dict
  debug_iterations : Nat
deriving DecidableEq

/-- `debugger_agent` of `app/agents/debugger.py` lines 103-147 as a
function of the generation call outcome: on success it merges the parsed
fixes over the existing files and increments the counter; on failure it
only increments the counter. -/
def debugger_agent (resp : Except Str ParserInput) (s : GState) : DbgUpdate :=
  match resp with
  | .ok content =>
    { files := some (pyMerge s.files (parse_debugger_output content))
      debug_iterations := s.debug_iterations + 1 }
  | .error _ => { files := none, debug_iterations := s.debug_iterations + 1 }

end Debugger

/-! ## The orchestrator graph (`app/graph/flow.py`) -/

/-- Nodes of the compiled graph, plus the `END` sentinel. -/
inductive Node
  | architect
  | coder
  | tester
  | debugger
  | terminal
deriving DecidableEq

/-- Routing result of the conditional edge. -/
inductive Route
  | toEnd
  | toCoder
  | toDebugger
deriving DecidableEq

/-- `check_test_results` of `app/graph/flow.py` lines 8-38. -/
def check_test_results (s : GState) : Route :=
  if getPassed s then .toEnd
  else if 3 ≤ s.debug_iterations then .toEnd
  else if s.debug_iterations = 0 then .toCoder
  else .toDebugger

/-- Map the router's label through the conditional-edge table of
`build_graph` (`flow.py` lines 60-68). -/
def routeNode : Route → Node
  | .toEnd => .terminal
  | .toCoder => .coder
  | .toDebugger => .debugger

/-- Channel application for the architect update. -/
def applyArch (s : GState) (u : Architect.ArchUpdate) : GState :=
  { s with plan := u.plan, tech_decisions := u.tech_decisions }

/-- Channel application for the coder update. -/
def applyCoder (s : GState) (u : Coder.CoderUpdate) : GState :=
  { s with files := u.files.getD s.files, errors := u.errors.getD s.errors }

/-- Channel application for the tester update. -/
def applyTester (s : GState) (u : Tester.TesterUpdate) : GState :=
  { s with files := u.files.getD s.files, test_results := some u.test_results }

/-- Channel application for the debugger update. -/
def applyDbg (s : GState) (u : Debugger.DbgUpdate) : GState :=
  { s with files := u.files.getD s.files, debug_iterations := u.debug_iterations }

/-- The external world, indexed by how many calls each role has made so
far: outcomes of the four generation calls and of the sandbox run
(`Except.error` is a raised exception). -/
structure Oracles where
  archResp : Nat → Except Str Architect.ArchOut
  coderResp : Nat → Except Str ParserInput
  testerResp : Nat → Except Str ParserInput
  sandboxRun : Nat → Except Str (Bool × Str)
  dbgResp : Nat → Except Str ParserInput

/-- A point of the run: current node, state and per-role call counters
(`calls` counts every node execution). -/
structure OrchConfig where
  node : Node
  state : GState
  archCalls : Nat
  coderCalls : Nat
  testerCalls : Nat
  dbgCalls : Nat
  calls : Nat

/-- One super-step of the compiled graph: execute the current node, apply
its update, follow the outgoing (possibly conditional) edge. -/
def step (o : Oracles) (c : OrchConfig) : OrchConfig :=
  match c.node with
  | .architect =>
    let s := applyArch c.state (Architect.architect_agent (o.archResp c.archCalls))
    { c with node := .coder, state := s, archCalls := c.archCalls + 1, calls := c.calls + 1 }
  | .coder =>
    let s := applyCoder c.state (Coder.coder_agent (o.coderResp c.coderCalls))
    { c with node := .tester, state := s, coderCalls := c.coderCalls + 1, calls := c.calls + 1 }
  | .tester =>
    let s := applyTester c.state
      (Tester.tester_agent (o.testerResp c.testerCalls) (o.sandboxRun c.testerCalls) c.state)
    { c with node := routeNode (check_test_results s), state := s,
             testerCalls := c.testerCalls + 1, calls := c.calls + 1 }
  | .debugger =>
    let s := applyDbg c.state (Debugger.debugger_agent (o.dbgResp c.dbgCalls) c.state)
    { c with node := .tester, state := s, dbgCalls := c.dbgCalls + 1, calls := c.calls + 1 }
  | .terminal => c

/-- The entry point (`set_entry_point("architect")`). -/
def initConfig : OrchConfig :=
  { node := .architect, state := initState, archCalls := 0, coderCalls := 0,
    testerCalls := 0, dbgCalls := 0, calls := 0 }

/-- The run after `n` super-steps. -/
def run (o : Oracles) : Nat → OrchConfig
  | 0 => initConfig
  | n + 1 => step o (run o n)

/-- The adversarial world of the termination claim: every generation call
raises and every test execution fails. -/
def allFail : Oracles :=
  { archResp := fun _ => .error []
    coderResp := fun _ => .error []
    testerResp := fun _ => .error []
    sandboxRun := fun _ => .ok (false, [])
    dbgResp := fun _ => .error [] }

/-! ## The sandbox runner (`run_command` / `setup_and_run_tests`) -/

/-- Outcome of one `subprocess.run` call: a completed process with its exit
code and combined output, or a raised exception (timeouts raise
`subprocess.TimeoutExpired`). -/
inductive ProcOutcome
  | exit (code : Int) (out : Str)
  | raised (msg : Str)
deriving DecidableEq

/-- `run_command` of `app/agents/tester.py` lines 97-112:
`(result.returncode == 0, stdout + "\n" + stderr)` on completion, and
`(False, str(e))` on any exception. -/
def run_command : ProcOutcome → Bool × Str
  | .exit code out => (decide (code = 0), out)
  | .raised msg => (false, msg)

/-- The on-disk situation and the process outcomes the sandbox would
observe for each command it may issue. -/
structure SandboxEnv where
  venvExists : Bool
  nodeModulesExist : Bool
  venvCreate : ProcOutcome
  pipUpgrade : ProcOutcome
  pipInstall : ProcOutcome
  fwInstall : ProcOutcome
  httpxInstall : ProcOutcome
  testRun : ProcOutcome
  npmInstall : ProcOutcome
  npmTest : ProcOutcome

/-- Steps B-D of the python branch of `setup_and_run_tests` (`tester.py`
lines 154-179): install dependencies (fail fast), best-effort framework
and httpx installs (results discarded), then run the tests. -/
def pythonDeps (env : SandboxEnv) (framework : Str) (logs : List Str) :
    Bool × Str :=
  let logs := logs ++ ["--- Installing/Updating Dependencies ---".data]
  let r := run_command env.pipInstall
  let logs := logs ++ [r.2]
  if r.1 = false then (false, strJoin [nlChar] logs)
  else
    let logs :=
      if framework.isEmpty || toLowerStr framework = "unittest".data then logs
      else logs ++ ["--- Ensuring ".data ++ framework ++ " is installed ---".data]
    let logs := logs ++
      ["--- Running Tests (".data ++ framework ++ ") ---".data]
    let t := run_command env.testRun
    let logs := logs ++ [t.2]
    (t.1, strJoin [nlChar] logs)

/-- `setup_and_run_tests` of `app/agents/tester.py` lines 114-201, as a
function of the declared framework and stack.  File writing and the choice
of the concrete test command (django vs `-m framework`) do not affect the
verdict logic; a write failure propagates as an exception and is absorbed
by `tester_agent` (see `Tester.tester_agent`). -/
def setup_and_run_tests (env : SandboxEnv) (framework tsLanguage : Str) :
    Bool × Str :=
  let language := toLowerStr tsLanguage
  if hasSub "python".data language then
    if env.venvExists = false then
      let logs := ["--- Creating Venv (First Run Only) ---".data]
      let r := run_command env.venvCreate
      let logs := logs ++ [r.2]
      if r.1 = false then (false, strJoin [nlChar] logs)
      else pythonDeps env framework
        (logs ++ ["--- Upgrading Pip (First Run Only) ---".data])
    else pythonDeps env framework ["--- Venv exists, skipping creation ---".data]
  else if hasSub "node".data language || hasSub "javascript".data language then
    if env.nodeModulesExist = false then
      let logs := ["--- Installing Node Dependencies (First Run) ---".data]
      let r := run_command env.npmInstall
      if r.1 = false then (false, r.2)
      else
        let logs := logs ++ ["--- Running Tests ---".data]
        let t := run_command env.npmTest
        (t.1, strJoin [nlChar] (logs ++ [t.2]))
    else
      let logs := ["--- Updating Node Dependencies ---".data,
                   "--- Running Tests ---".data]
      let t := run_command env.npmTest
      (t.1, strJoin [nlChar] (logs ++ [t.2]))
  else (false, [])

/-! ## Concrete inputs used by witnesses and counterexamples -/

/-- A state already holding one generated file. -/
def egState : GState := { initState with files := [("keep.py".data, "k".data)] }

/-- A raw LLM answer containing a single block for a fresh path. -/
def egCoderText : ParserInput :=
  ParserInput.str "<file path=\"new.py\">print(1)</file>".data

/-- A raw LLM answer with no well-formed block at all. -/
def egPlainText : ParserInput :=
  ParserInput.list [PyVal.pstr "hello ".data, PyVal.other "42".data]

/-- Block content wrapped in curly quotes. -/
def egCurly : Str := "“abc”".data

/-- Block content with an escaped single quote. -/
def egEscQuote : Str := "ab\\'cd".data

/-- Block content with escaped newlines and no real newline. -/
def egEscaped : Str := "a\\nb".data

/-- A sandbox world whose venv creation fails with exit code 1. -/
def egEnvVenvFail : SandboxEnv :=
  { venvExists := false, nodeModulesExist := false
    venvCreate := .exit 1 "venv boom".data, pipUpgrade := .exit 0 []
    pipInstall := .exit 0 [], fwInstall := .exit 0 [], httpxInstall := .exit 0 []
    testRun := .exit 0 [], npmInstall := .exit 0 [], npmTest := .exit 0 [] }

/-- A sandbox world where provisioning succeeds and the test command exits
with code 2. -/
def egEnvTestFail : SandboxEnv :=
  { venvExists := true, nodeModulesExist := false
    venvCreate := .exit 0 [], pipUpgrade := .exit 0 []
    pipInstall := .exit 0 "deps ok".data, fwInstall := .exit 0 []
    httpxInstall := .exit 0 [], testRun := .exit 2 "1 failed".data
    npmInstall := .exit 0 [], npmTest := .exit 0 [] }

/-- A debugger answer fixing one file. -/
def egDbgText : ParserInput :=
  ParserInput.str "<file path=\"fix.py\">y = 2</file>".data

/-- Example stores for the merge witness. -/
def egStoreS : Dict := [("a".data, "1".data), ("c".data, "3".data)]

/-- Example update map for the merge witness. -/
def egStoreU : Dict := [("a".data, "2".data), ("b".data, "9".data)]

/-! ## Substring machinery -/

theorem isPre_iff (pat s : Str) : isPre pat s = true ↔ ∃ r, s = pat ++ r := by
  induction pat generalizing s with
  | nil => simp [isPre]
  | cons a l ih =>
    cases s with
    | nil => simp [isPre]
    | cons b m =>
      simp only [isPre, Bool.and_eq_true, decide_eq_true_eq, ih, List.cons_append]
      constructor
      · rintro ⟨rfl, r, rfl⟩; exact ⟨r, rfl⟩
      · rintro ⟨r, h⟩
        injection h with h1 h2
        exact ⟨h1.symm, r, h2⟩

theorem occursIn_nil_iff (pat : Str) : occursIn pat [] ↔ pat = [] := by
  constructor
  · rintro ⟨l, r, h⟩
    rcases List.append_eq_nil.mp h.symm with ⟨h1, h2⟩
    exact (List.append_eq_nil.mp h1).2
  · rintro rfl; exact ⟨[], [], rfl⟩

theorem occursIn_cons (pat : Str) (c : Char) (t : Str) :
    occursIn pat (c :: t) ↔ (∃ r, c :: t = pat ++ r) ∨ occursIn pat t := by
  constructor
  · rintro ⟨l, r, h⟩
    cases l with
    | nil => exact Or.inl ⟨r, by simpa using h⟩
    | cons a l' =>
      right
      rw [List.cons_append, List.cons_append] at h
      injection h with h1 h2
      exact ⟨l', r, by simpa using h2⟩
  · rintro (⟨r, h⟩ | ⟨l, r, h⟩)
    · exact ⟨[], r, by simpa using h⟩
    · exact ⟨c :: l, r, by simp [h]⟩

theorem hasSub_iff (pat s : Str) : hasSub pat s = true ↔ occursIn pat s := by
  induction s with
  | nil =>
    rw [hasSub, isPre_iff, occursIn_nil_iff]
    constructor
    · rintro ⟨r, h⟩
      exact (List.append_eq_nil.mp h.symm).1
    · rintro rfl; exact ⟨[], rfl⟩
  | cons c t ih =>
    rw [hasSub, Bool.or_eq_true, isPre_iff, ih, occursIn_cons]

theorem hasSub_false_iff (pat s : Str) : hasSub pat s = false ↔ ¬ occursIn pat s := by
  rw [← hasSub_iff, Bool.eq_false_iff]

theorem occursIn_mono (pat l m r : Str) (h : occursIn pat m) :
    occursIn pat (l ++ m ++ r) := by
  obtain ⟨a, b, rfl⟩ := h
  exact ⟨l ++ a, b ++ r, by simp [List.append_assoc]⟩

theorem occursIn_rev_of (pat s : Str) (h : occursIn pat s) :
    occursIn pat.reverse s.reverse := by
  obtain ⟨l, r, rfl⟩ := h
  exact ⟨r.reverse, l.reverse, by simp [List.reverse_append, List.append_assoc]⟩

theorem occursIn_singleton (a : Char) (s : Str) : occursIn [a] s ↔ a ∈ s := by
  constructor
  · rintro ⟨l, r, rfl⟩; simp
  · intro h
    obtain ⟨l, r, rfl⟩ := List.append_of_mem h
    exact ⟨l, r, by simp⟩

theorem occursIn_length (pat s : Str) (h : occursIn pat s) :
    pat.length ≤ s.length := by
  obtain ⟨l, r, rfl⟩ := h
  simp only [List.length_append]
  omega

/-! ## Whitespace stripping -/

theorem dropWhile_sub (q : Char → Bool) (s : Str) :
    ∃ l, s = l ++ s.dropWhile q :=
  ⟨s.takeWhile q, (List.takeWhile_append_dropWhile q s).symm⟩

theorem dropWhile_head_false (q : Char → Bool) (s : Str) (c : Char) (t : Str)
    (h : s.dropWhile q = c :: t) : q c = false := by
  induction s with
  | nil => simp at h
  | cons a s' ih =>
    rw [List.dropWhile_cons] at h
    by_cases hqa : q a = true
    · exact ih (by simpa [hqa] using h)
    · rw [if_neg (by simp [hqa])] at h
      injection h with h1 _
      subst h1
      simpa using hqa

theorem dropWhile_idem (q : Char → Bool) (s : Str) :
    (s.dropWhile q).dropWhile q = s.dropWhile q := by
  cases h : s.dropWhile q with
  | nil => rfl
  | cons c t =>
    rw [List.dropWhile_cons, if_neg]
    simp [dropWhile_head_false q s c t h]

theorem pyStrip_sub (s : Str) : ∃ l r, s = l ++ pyStrip s ++ r := by
  obtain ⟨l1, h1⟩ := dropWhile_sub isSpace s
  obtain ⟨l2, h2⟩ := dropWhile_sub isSpace (s.dropWhile isSpace).reverse
  refine ⟨l1, l2.reverse, ?_⟩
  have h3 : s.dropWhile isSpace = pyStrip s ++ l2.reverse := by
    have := congrArg List.reverse h2
    rw [List.reverse_reverse, List.reverse_append] at this
    exact this
  conv_lhs => rw [h1, h3]
  exact (List.append_assoc l1 (pyStrip s) l2.reverse).symm

theorem occursIn_of_pyStrip (pat s : Str) (h : occursIn pat (pyStrip s)) :
    occursIn pat s := by
  obtain ⟨l, r, hs⟩ := pyStrip_sub s
  rw [hs]; exact occursIn_mono pat l _ r h

theorem occursIn_dropWhile (q : Char → Bool) (p₀ : Char) (ps : Str)
    (hp : q p₀ = false) (s : Str) (h : occursIn (p₀ :: ps) s) :
    occursIn (p₀ :: ps) (s.dropWhile q) := by
  induction s with
  | nil => rw [occursIn_nil_iff] at h; cases h
  | cons a t ih =>
    rw [occursIn_cons] at h
    rcases h with ⟨r, hr⟩ | h
    · rw [List.cons_append] at hr
      obtain ⟨ha, ht⟩ := List.cons_eq_cons.mp hr
      rw [List.dropWhile_cons, if_neg (by simp [ha, hp])]
      exact ⟨[], r, by simp [ha, ht]⟩
    · by_cases hqa : q a = true
      · rw [List.dropWhile_cons, if_pos (by simp [hqa])]
        exact ih h
      · rw [List.dropWhile_cons, if_neg (by simp [hqa])]
        exact (occursIn_cons _ _ _).mpr (Or.inr h)

theorem occursIn_pyStrip (p₀ q₀ : Char) (ps qs pat : Str)
    (hpat : pat = p₀ :: ps) (hrev : pat.reverse = q₀ :: qs)
    (h1 : isSpace p₀ = false) (h2 : isSpace q₀ = false) (s : Str)
    (h : occursIn pat s) : occursIn pat (pyStrip s) := by
  unfold pyStrip
  have step1 : occursIn pat (s.dropWhile isSpace) := by
    rw [hpat] at h ⊢; exact occursIn_dropWhile isSpace p₀ ps h1 s h
  have step2 := occursIn_rev_of pat (s.dropWhile isSpace) step1
  have step3 : occursIn pat.reverse
      ((s.dropWhile isSpace).reverse.dropWhile isSpace) := by
    rw [hrev] at step2 ⊢
    exact occursIn_dropWhile isSpace q₀ qs h2 _ step2
  have step4 := occursIn_rev_of pat.reverse _ step3
  rwa [List.reverse_reverse] at step4

theorem pyStrip_idem (s : Str) : pyStrip (pyStrip s) = pyStrip s := by
  unfold pyStrip
  have key : ((s.dropWhile isSpace).reverse.dropWhile isSpace).reverse.dropWhile
      isSpace = ((s.dropWhile isSpace).reverse.dropWhile isSpace).reverse := by
    cases hc : ((s.dropWhile isSpace).reverse.dropWhile isSpace).reverse with
    | nil => rfl
    | cons c t =>
      have hdecomp : (s.dropWhile isSpace).reverse =
          (s.dropWhile isSpace).reverse.takeWhile isSpace ++
          (s.dropWhile isSpace).reverse.dropWhile isSpace :=
        (List.takeWhile_append_dropWhile isSpace (s.dropWhile isSpace).reverse).symm
      have hu : s.dropWhile isSpace =
          ((s.dropWhile isSpace).reverse.dropWhile isSpace).reverse ++
          ((s.dropWhile isSpace).reverse.takeWhile isSpace).reverse := by
        have := congrArg List.reverse hdecomp
        rwa [List.reverse_reverse, List.reverse_append] at this
      rw [hc] at hu
      have hcfalse : isSpace c = false := by
        rcases hfull : ((s.dropWhile isSpace).reverse.takeWhile isSpace).reverse
          with _ | _
        all_goals {
          rw [hfull] at hu
          exact dropWhile_head_false isSpace s c _ (by simpa using hu)
        }
      rw [List.dropWhile_cons, if_neg (by simp [hcfalse])]
  rw [key, List.reverse_reverse, dropWhile_idem]

/-! ## One-layer quote stripping -/

theorem dropLast_rev (m : Str) : m.reverse.dropLast = (m.drop 1).reverse := by
  cases m with
  | nil => rfl
  | cons a m' => simp [List.reverse_cons, List.dropLast_concat]

theorem dropLast_eq_rev (t : Str) : t.dropLast = (t.reverse.drop 1).reverse := by
  conv_lhs => rw [← List.reverse_reverse t]
  rw [dropLast_rev]

theorem strip1_eq (s : Str) : strip1 s = ((s.drop 1).reverse.drop 1).reverse := by
  rw [strip1, dropLast_eq_rev]

theorem strip1_sub (s : Str) : ∃ l r, s = l ++ strip1 s ++ r := by
  by_cases h : s.drop 1 = []
  · exact ⟨s, [], by simp [strip1, h]⟩
  · refine ⟨s.take 1, [(s.drop 1).getLast h], ?_⟩
    conv_lhs => rw [← List.take_append_drop 1 s]
    rw [strip1, List.append_assoc]
    congr 1
    exact (List.dropLast_append_getLast h).symm

theorem occursIn_of_strip1 (pat s : Str) (h : occursIn pat (strip1 s)) :
    occursIn pat s := by
  obtain ⟨l, r, hs⟩ := strip1_sub s
  rw [hs]; exact occursIn_mono pat l _ r h

theorem occursIn_drop1 (q p₀ : Char) (ps : Str) (hne : ¬ p₀ = q) (s : Str)
    (hs : startsWithCh q s = true) (h : occursIn (p₀ :: ps) s) :
    occursIn (p₀ :: ps) (s.drop 1) := by
  cases s with
  | nil => simp [startsWithCh] at hs
  | cons a t =>
    have ha : a = q := by simpa [startsWithCh] using hs
    rw [occursIn_cons] at h
    rcases h with ⟨r, hr⟩ | h
    · rw [List.cons_append] at hr
      injection hr with h1 _
      exact absurd (h1.symm.trans ha) hne
    · simpa using h

theorem occursIn_strip1 (q q' p₀ q₀ : Char) (ps qs pat : Str)
    (hpat : pat = p₀ :: ps) (hrev : pat.reverse = q₀ :: qs)
    (h1 : ¬ p₀ = q) (h2 : ¬ q₀ = q') (s : Str)
    (hs : startsWithCh q s = true) (he : endsWithCh q' s = true)
    (h : occursIn pat s) : occursIn pat (strip1 s) := by
  rw [strip1_eq]
  have ht : occursIn pat (s.drop 1) := by
    rw [hpat] at h ⊢; exact occursIn_drop1 q p₀ ps h1 s hs h
  have htne : s.drop 1 ≠ [] := by
    intro hnil
    rw [hnil, occursIn_nil_iff, hpat] at ht
    cases ht
  have he' : startsWithCh q' (s.drop 1).reverse = true := by
    cases s with
    | nil => simp at htne
    | cons a t =>
      have htne' : t ≠ [] := by simpa using htne
      cases hrev' : t.reverse with
      | nil => exact absurd (by simpa using congrArg List.reverse hrev') htne'
      | cons c w =>
        have hsrev : (a :: t).reverse = c :: (w ++ [a]) := by
          rw [List.reverse_cons, hrev']; rfl
        rw [endsWithCh, hsrev] at he
        simpa [startsWithCh, hrev'] using he
  have step2 := occursIn_rev_of pat (s.drop 1) ht
  have step3 : occursIn pat.reverse ((s.drop 1).reverse.drop 1) := by
    rw [hrev] at step2 ⊢
    exact occursIn_drop1 q' q₀ qs h2 _ he' step2
  have step4 := occursIn_rev_of pat.reverse _ step3
  rwa [List.reverse_reverse] at step4

/-! ## Single-pass replacement -/

theorem occursIn_pair_cons (B X c : Char) (t : Str) :
    occursIn [B, X] (c :: t) ↔ (c = B ∧ ∃ t', t = X :: t') ∨ occursIn [B, X] t := by
  rw [occursIn_cons]
  constructor
  · rintro (⟨r, hr⟩ | h)
    · simp only [List.cons_append, List.nil_append] at hr
      obtain ⟨h1, h2⟩ := List.cons_eq_cons.mp hr
      exact Or.inl ⟨h1, r, h2⟩
    · exact Or.inr h
  · rintro (⟨hc, t', rfl⟩ | h)
    · exact Or.inl ⟨t', by simp [hc]⟩
    · exact Or.inr h

theorem not_occursIn_pair_short (B X c : Char) : ¬ occursIn [B, X] [c] := by
  intro h
  have := occursIn_length _ _ h
  simp at this

theorem mem_pyReplace2 (B X Y m : Char) (hmb : ¬ m = B) (hmx : ¬ m = X)
    (s : Str) (h : m ∈ s) : m ∈ pyReplace2 B X Y s := by
  induction s using pyReplace2.induct B X Y with
  | case1 => simp at h
  | case2 c => simpa [pyReplace2] using h
  | case3 c d t hcd ih =>
    obtain ⟨rfl, rfl⟩ := hcd
    simp only [pyReplace2, if_pos (And.intro rfl rfl)]
    have hmem : m ∈ t := by
      rcases List.mem_cons.mp h with h1 | h2
      · exact absurd h1 hmb
      · rcases List.mem_cons.mp h2 with h3 | h4
        · exact absurd h3 hmx
        · exact h4
    exact List.mem_cons_of_mem _ (ih hmem)
  | case4 c d t hcd ih =>
    simp only [pyReplace2, if_neg hcd]
    rcases List.mem_cons.mp h with h1 | h2
    · exact h1 ▸ List.mem_cons_self _ _
    · exact List.mem_cons_of_mem _ (ih h2)

theorem pyReplace2_creates (B X Y : Char) (s : Str) (h : occursIn [B, X] s) :
    Y ∈ pyReplace2 B X Y s := by
  induction s using pyReplace2.induct B X Y with
  | case1 => rw [occursIn_nil_iff] at h; cases h
  | case2 c => exact absurd h (not_occursIn_pair_short B X c)
  | case3 c d t hcd ih =>
    simp only [pyReplace2, if_pos hcd]
    exact List.mem_cons_self _ _
  | case4 c d t hcd ih =>
    simp only [pyReplace2, if_neg hcd]
    rw [occursIn_pair_cons] at h
    rcases h with ⟨rfl, t', ht⟩ | h
    · obtain ⟨hd, _⟩ := List.cons_eq_cons.mp ht
      exact absurd ⟨rfl, hd⟩ hcd
    · exact List.mem_cons_of_mem _ (ih h)

theorem pyReplace2_head (B X Y d : Char) (t : Str) :
    (∃ rest, pyReplace2 B X Y (d :: t) = Y :: rest ∧ d = B ∧ ∃ t2, t = X :: t2) ∨
    (∃ rest, pyReplace2 B X Y (d :: t) = d :: rest) := by
  cases t with
  | nil => exact Or.inr ⟨[], rfl⟩
  | cons e t' =>
    by_cases hde : d = B ∧ e = X
    · left
      refine ⟨pyReplace2 B X Y t', ?_, hde.1, t', ?_⟩
      · simp only [pyReplace2, if_pos hde]
      · rw [hde.2]
    · exact Or.inr ⟨pyReplace2 B X Y (e :: t'),
        by simp only [pyReplace2, if_neg hde]⟩

theorem pyReplace2_no_residual (B X Y : Char) (hyb : ¬ Y = B) (hyx : ¬ Y = X)
    (s : Str) : ¬ occursIn [B, X] (pyReplace2 B X Y s) := by
  induction s using pyReplace2.induct B X Y with
  | case1 =>
    intro h
    rw [pyReplace2, occursIn_nil_iff] at h
    cases h
  | case2 c =>
    intro h
    rw [pyReplace2] at h
    exact not_occursIn_pair_short B X c h
  | case3 c d t hcd ih =>
    simp only [pyReplace2, if_pos hcd]
    intro h
    rw [occursIn_pair_cons] at h
    rcases h with ⟨hYB, _⟩ | h
    · exact hyb hYB
    · exact ih h
  | case4 c d t hcd ih =>
    simp only [pyReplace2, if_neg hcd]
    intro h
    rw [occursIn_pair_cons] at h
    rcases h with ⟨hcB, t', ht'⟩ | h
    · rcases pyReplace2_head B X Y d t with ⟨rest, heq, _, _⟩ | ⟨rest, heq⟩
      · rw [heq] at ht'
        exact hyx (List.cons_eq_cons.mp ht').1
      · rw [heq] at ht'
        exact hcd ⟨hcB, (List.cons_eq_cons.mp ht').1⟩
    · exact ih h

theorem pyReplace2_preserves_no (B Q M : Char) (hq1 : ¬ Q = B) (hq2 : ¬ Q = M)
    (s : Str) (h : ¬ occursIn [B, M] s) : ¬ occursIn [B, M] (pyReplace2 B Q Q s) := by
  induction s using pyReplace2.induct B Q Q with
  | case1 => simpa [pyReplace2] using h
  | case2 c => simpa [pyReplace2] using h
  | case3 c d t hcd ih =>
    simp only [pyReplace2, if_pos hcd]
    intro hocc
    rw [occursIn_pair_cons] at hocc
    rcases hocc with ⟨hQB, _⟩ | hocc
    · exact hq1 hQB
    · refine ih ?_ hocc
      intro hT
      exact h ((occursIn_pair_cons _ _ _ _).mpr (Or.inr
        ((occursIn_pair_cons _ _ _ _).mpr (Or.inr hT))))
  | case4 c d t hcd ih =>
    simp only [pyReplace2, if_neg hcd]
    intro hocc
    rw [occursIn_pair_cons] at hocc
    rcases hocc with ⟨hcB, t', ht'⟩ | hocc
    · rcases pyReplace2_head B Q Q d t with ⟨rest, heq, _, _⟩ | ⟨rest, heq⟩
      · rw [heq] at ht'
        exact hq2 (List.cons_eq_cons.mp ht').1
      · rw [heq] at ht'
        have hdM : d = M := (List.cons_eq_cons.mp ht').1
        exact h ((occursIn_pair_cons _ _ _ _).mpr
          (Or.inl ⟨hcB, t, by rw [hdM]⟩))
    · refine ih ?_ hocc
      intro hT
      exact h ((occursIn_pair_cons _ _ _ _).mpr (Or.inr hT))

theorem pyReplace2_preserves_yes (B Q M : Char) (hq1 : ¬ Q = B) (hq2 : ¬ Q = M)
    (hMB : ¬ M = B) (s : Str) (h : occursIn [B, M] s) :
    occursIn [B, M] (pyReplace2 B Q Q s) := by
  induction s using pyReplace2.induct B Q Q with
  | case1 => rw [occursIn_nil_iff] at h; cases h
  | case2 c => exact absurd h (not_occursIn_pair_short B M c)
  | case3 c d t hcd ih =>
    simp only [pyReplace2, if_pos hcd]
    rw [occursIn_pair_cons] at h
    rcases h with ⟨_, t', ht⟩ | h
    · exact absurd (hcd.2.symm.trans (List.cons_eq_cons.mp ht).1) hq2
    · rw [occursIn_pair_cons] at h
      rcases h with ⟨hQB, _⟩ | h
      · exact absurd (hcd.2.symm.trans hQB) hq1
      · exact (occursIn_pair_cons _ _ _ _).mpr (Or.inr (ih h))
  | case4 c d t hcd ih =>
    simp only [pyReplace2, if_neg hcd]
    rw [occursIn_pair_cons] at h
    rcases h with ⟨hcB, t', ht⟩ | h
    · have hdM : d = M := (List.cons_eq_cons.mp ht).1
      rcases pyReplace2_head B Q Q d t with ⟨_, _, hdB, _⟩ | ⟨rest, heq⟩
      · exact absurd (hdM ▸ hdB) hMB
      · exact (occursIn_pair_cons _ _ _ _).mpr
          (Or.inl ⟨hcB, rest, by rw [heq, hdM]⟩)
    · exact (occursIn_pair_cons _ _ _ _).mpr (Or.inr (ih h))

/-! ## Extraction engine lemmas -/

theorem expectStr_some_length (lit : Str) : ∀ s r : Str,
    expectStr lit s = some r → r.length + lit.length = s.length := by
  induction lit with
  | nil =>
    intro s r h
    simp only [expectStr, Option.some.injEq] at h
    simp [h]
  | cons a l ih =>
    intro s r h
    cases s with
    | nil => simp [expectStr] at h
    | cons b m =>
      simp only [expectStr] at h
      by_cases hab : a = b
      · rw [if_pos hab] at h
        have := ih m r h
        simp only [List.length_cons]
        omega
      · rw [if_neg hab] at h
        cases h

theorem length_dropWhile_le (q : Char → Bool) (s : Str) :
    (s.dropWhile q).length ≤ s.length := by
  induction s with
  | nil => simp
  | cons a t ih =>
    rw [List.dropWhile_cons]
    by_cases hqa : q a = true
    · rw [if_pos (by simp [hqa])]
      simp only [List.length_cons]
      omega
    · rw [if_neg (by simp [hqa])]

theorem splitAtFirst_some_length (pat : Str) : ∀ s pre post : Str,
    splitAtFirst pat s = some (pre, post) → post.length ≤ s.length := by
  intro s
  induction s with
  | nil =>
    intro pre post h
    simp only [splitAtFirst] at h
    by_cases hp : isPre pat [] = true
    · rw [if_pos hp] at h
      simp only [Option.some.injEq, Prod.mk.injEq] at h
      simp [← h.2]
    · rw [if_neg hp] at h
      cases h
  | cons c t ih =>
    intro pre post h
    simp only [splitAtFirst] at h
    by_cases hp : isPre pat (c :: t) = true
    · rw [if_pos hp] at h
      simp only [Option.some.injEq, Prod.mk.injEq] at h
      rw [← h.2, List.length_drop]
      omega
    · rw [if_neg hp] at h
      cases h2 : splitAtFirst pat t with
      | none => rw [h2] at h; cases h
      | some pr =>
        rw [h2] at h
        simp only [Option.some.injEq, Prod.mk.injEq] at h
        have := ih pr.1 pr.2 (by rw [h2])
        rw [← h.2]
        simp only [List.length_cons]
        omega

theorem tryMatchAt_nil : tryMatchAt [] = none := rfl

theorem tryMatchAt_some (s : Str) (m : Str × Str × Str)
    (h : tryMatchAt s = some m) :
    m.2.2.length < s.length ∧ ∃ pre, m.2.1 = pyStrip pre := by
  unfold tryMatchAt at h
  cases h1 : expectStr fileOpenTag s with
  | none => rw [h1] at h; exact Option.noConfusion h
  | some r1 =>
    rw [h1] at h
    have hl1 : r1.length + 5 = s.length := expectStr_some_length fileOpenTag s r1 h1
    cases r1 with
    | nil => exact Option.noConfusion h
    | cons c r1' =>
      dsimp only at h
      by_cases hsp : isSpace c = true
      · rw [if_pos hsp] at h
        cases h2 : expectStr pathAttr ((c :: r1').dropWhile isSpace) with
        | none => rw [h2] at h; exact Option.noConfusion h
        | some r2 =>
          rw [h2] at h
          dsimp only at h
          have hl2 : r2.length + 6 = ((c :: r1').dropWhile isSpace).length :=
            expectStr_some_length pathAttr _ r2 h2
          have hdw : ((c :: r1').dropWhile isSpace).length ≤ (c :: r1').length :=
            length_dropWhile_le isSpace (c :: r1')
          cases h3 : r2.takeWhile (fun ch => ! (ch = '"')) with
          | nil => rw [h3] at h; exact Option.noConfusion h
          | cons p ps =>
            rw [h3] at h
            dsimp only at h
            cases h4 : expectStr quoteGt (r2.drop (p :: ps).length) with
            | none => rw [h4] at h; exact Option.noConfusion h
            | some r3 =>
              rw [h4] at h
              dsimp only at h
              have hl4 : r3.length + 2 = (r2.drop (p :: ps).length).length :=
                expectStr_some_length quoteGt _ r3 h4
              have hl4' : (r2.drop (p :: ps).length).length ≤ r2.length := by
                rw [List.length_drop]
                omega
              cases h5 : splitAtFirst fileCloseTag r3 with
              | none => rw [h5] at h; exact Option.noConfusion h
              | some pr =>
                rw [h5] at h
                dsimp only at h
                have hl5 : pr.2.length ≤ r3.length :=
                  splitAtFirst_some_length fileCloseTag r3 pr.1 pr.2
                    (by rw [h5])
                simp only [Option.some.injEq] at h
                constructor
                · rw [← h]
                  simp only [List.length_cons] at hl1 hl2 hdw ⊢
                  omega
                · exact ⟨pr.1, by rw [← h]⟩
      · rw [if_neg hsp] at h
        exact Option.noConfusion h

theorem findBlocksAux_eq_nil_iff : ∀ (fuel : Nat) (s : Str), s.length ≤ fuel →
    (findBlocksAux fuel s = [] ↔ ∀ i ≤ s.length, tryMatchAt (s.drop i) = none) := by
  intro fuel
  induction fuel with
  | zero =>
    intro s hf
    have hs : s = [] := List.length_eq_zero.mp (Nat.le_zero.mp hf)
    subst hs
    constructor
    · intro _ i _
      rw [List.drop_nil]
      exact tryMatchAt_nil
    · intro _; rfl
  | succ fuel ih =>
    intro s hf
    cases s with
    | nil =>
      constructor
      · intro _ i _
        rw [List.drop_nil]
        exact tryMatchAt_nil
      · intro _; rfl
    | cons c t =>
      have hf' : t.length ≤ fuel := by
        simp only [List.length_cons] at hf
        omega
      cases hm : tryMatchAt (c :: t) with
      | some m =>
        simp only [findBlocksAux, hm]
        apply iff_of_false
        · simp
        · intro hall
          have := hall 0 (by omega)
          rw [List.drop_zero, hm] at this
          exact Option.noConfusion this
      | none =>
        simp only [findBlocksAux, hm]
        rw [ih t hf']
        constructor
        · intro hall i hi
          cases i with
          | zero =>
            rw [List.drop_zero]
            exact hm
          | succ j =>
            rw [List.drop_succ_cons]
            refine hall j ?_
            simp only [List.length_cons] at hi
            omega
        · intro hall i hi
          have := hall (i + 1) (by simp only [List.length_cons]; omega)
          rwa [List.drop_succ_cons] at this

theorem findBlocks_eq_nil_iff (s : Str) :
    findBlocks s = [] ↔ ∀ i ≤ s.length, tryMatchAt (s.drop i) = none := by
  rw [findBlocks]
  exact findBlocksAux_eq_nil_iff s.length s le_rfl

theorem findBlocksAux_content : ∀ (fuel : Nat) (s p ct : Str),
    (p, ct) ∈ findBlocksAux fuel s → pyStrip ct = ct := by
  intro fuel
  induction fuel with
  | zero => intro s p ct h; simp [findBlocksAux] at h
  | succ fuel ih =>
    intro s p ct h
    cases s with
    | nil => simp [findBlocksAux] at h
    | cons c t =>
      cases hm : tryMatchAt (c :: t) with
      | some m =>
        rw [findBlocksAux, hm] at h
        rcases List.mem_cons.mp h with h1 | h2
        · obtain ⟨pre, hpre⟩ := (tryMatchAt_some _ m hm).2
          have hct : ct = m.2.1 := congrArg Prod.snd h1
          rw [hct, hpre, pyStrip_idem]
        · exact ih m.2.2 p ct h2
      | none =>
        rw [findBlocksAux, hm] at h
        exact ih t p ct h

theorem findBlocks_content (s p ct : Str) (h : (p, ct) ∈ findBlocks s) :
    pyStrip ct = ct :=
  findBlocksAux_content s.length s p ct h

theorem length_dictInsert_ge (d : Dict) (k v : Str) :
    d.length ≤ (dictInsert d k v).length := by
  rw [dictInsert]
  by_cases hc : containsKey d k = true
  · rw [if_pos hc, List.length_map]
  · rw [if_neg hc, List.length_append]
    omega

theorem length_foldl_dictInsert (ins : Dict → Str × Str → Dict)
    (hins : ∀ d m, d.length ≤ (ins d m).length) :
    ∀ (ms : List (Str × Str)) (d : Dict), d.length ≤ (ms.foldl ins d).length := by
  intro ms
  induction ms with
  | nil => intro d; exact le_rfl
  | cons m ms' ih =>
    intro d
    rw [List.foldl_cons]
    exact le_trans (hins d m) (ih (ins d m))

theorem foldl_dictInsert_nil_iff (f : Str → Str) (ms : List (Str × Str)) :
    ms.foldl (fun fs m => dictInsert fs m.1 (f m.2)) ([] : Dict) = [] ↔ ms = [] := by
  cases ms with
  | nil => simp
  | cons m ms' =>
    apply iff_of_false
    · rw [List.foldl_cons]
      intro habs
      have h1 : (dictInsert ([] : Dict) m.1 (f m.2)).length ≤
          (ms'.foldl (fun fs m => dictInsert fs m.1 (f m.2))
            (dictInsert ([] : Dict) m.1 (f m.2))).length :=
        length_foldl_dictInsert _ (fun d m => length_dictInsert_ge d m.1 (f m.2)) ms' _
      rw [habs] at h1
      simp [dictInsert, containsKey] at h1
    · simp

/-! ## Dict lemmas -/

theorem containsKey_iff (d : Dict) (k : Str) :
    containsKey d k = true ↔ k ∈ dkeys d := by
  simp [containsKey, dkeys, List.any_eq_true, List.mem_map]

theorem dlookup_eq_none_iff (d : Dict) (k : Str) :
    dlookup k d = none ↔ ¬ k ∈ dkeys d := by
  induction d with
  | nil => simp [dlookup, dkeys]
  | cons p t ih =>
    simp only [dlookup, dkeys, List.map_cons, List.mem_cons]
    by_cases hpk : p.1 = k
    · rw [if_pos hpk]
      simp [hpk]
    · rw [if_neg hpk]
      rw [dkeys] at ih
      rw [ih]
      constructor
      · intro h
        rintro (h1 | h2)
        · exact hpk h1.symm
        · exact h h2
      · intro h h2
        exact h (Or.inr h2)

theorem dlookup_map_update_ne (d : Dict) (k v k' : Str) (hk : ¬ k' = k) :
    dlookup k' (d.map fun p => if p.1 = k then (k, v) else p) = dlookup k' d := by
  induction d with
  | nil => rfl
  | cons p t ih =>
    rw [List.map_cons]
    by_cases hpk : p.1 = k
    · rw [if_pos hpk]
      rw [dlookup, dlookup, if_neg (fun h => hk h.symm), if_neg (by rw [hpk]; exact fun h => hk h.symm)]
      exact ih
    · rw [if_neg hpk]
      rw [dlookup, dlookup]
      by_cases hpk' : p.1 = k'
      · rw [if_pos hpk', if_pos hpk']
      · rw [if_neg hpk', if_neg hpk']
        exact ih

theorem dlookup_map_update_self (d : Dict) (k v : Str) :
    dlookup k (d.map fun p => if p.1 = k then (k, v) else p) =
    if containsKey d k = true then some v else none := by
  induction d with
  | nil => simp [containsKey, dlookup]
  | cons p t ih =>
    rw [List.map_cons]
    by_cases hpk : p.1 = k
    · rw [if_pos hpk, dlookup, if_pos rfl, if_pos]
      rw [containsKey]
      simp [hpk]
    · rw [if_neg hpk, dlookup, if_neg hpk, ih]
      have hck : containsKey (p :: t) k = containsKey t k := by
        rw [containsKey, containsKey, List.any_cons]
        simp [hpk]
      rw [hck]

theorem dlookup_append (d e : Dict) (k : Str) :
    dlookup k (d ++ e) = (dlookup k d).or (dlookup k e) := by
  induction d with
  | nil => simp [dlookup]
  | cons p t ih =>
    rw [List.cons_append, dlookup, dlookup]
    by_cases hpk : p.1 = k
    · rw [if_pos hpk, if_pos hpk]
      rfl
    · rw [if_neg hpk, if_neg hpk]
      exact ih

theorem dlookup_dictInsert_self (d : Dict) (k v : Str) :
    dlookup k (dictInsert d k v) = some v := by
  rw [dictInsert]
  by_cases hc : containsKey d k = true
  · rw [if_pos hc, dlookup_map_update_self, if_pos hc]
  · rw [if_neg hc, dlookup_append]
    have hnone : dlookup k d = none := by
      rw [dlookup_eq_none_iff]
      intro hmem
      exact hc ((containsKey_iff d k).mpr hmem)
    rw [hnone]
    simp [dlookup]

theorem dlookup_dictInsert_ne (d : Dict) (k v k' : Str) (hk : ¬ k' = k) :
    dlookup k' (dictInsert d k v) = dlookup k' d := by
  rw [dictInsert]
  by_cases hc : containsKey d k = true
  · rw [if_pos hc]
    exact dlookup_map_update_ne d k v k' hk
  · rw [if_neg hc, dlookup_append]
    have : dlookup k' [(k, v)] = none := by
      rw [dlookup, if_neg (fun h => hk h.symm)]
      rfl
    rw [this, Option.or_none]

theorem mem_dkeys_dictInsert (d : Dict) (k v k' : Str) :
    k' ∈ dkeys (dictInsert d k v) ↔ k' ∈ dkeys d ∨ k' = k := by
  rw [dictInsert]
  by_cases hc : containsKey d k = true
  · rw [if_pos hc]
    have hkeys : dkeys (d.map fun p => if p.1 = k then (k, v) else p) = dkeys d := by
      rw [dkeys, dkeys, List.map_map]
      apply List.map_congr_left
      intro p _
      by_cases hpk : p.1 = k
      · simp [hpk]
      · simp [hpk]
    rw [hkeys]
    constructor
    · exact Or.inl
    · rintro (h | rfl)
      · exact h
      · exact (containsKey_iff d k').mp hc
  · rw [if_neg hc, dkeys, List.map_append]
    simp [dkeys]

theorem mem_dkeys_dictExtend (S U : Dict) (k : Str) :
    k ∈ dkeys (dictExtend S U) ↔ k ∈ dkeys S ∨ k ∈ dkeys U := by
  induction U generalizing S with
  | nil => simp [dictExtend, dkeys]
  | cons u U' ih =>
    rw [dictExtend, List.foldl_cons]
    have : (U'.foldl (fun acc p => dictInsert acc p.1 p.2) (dictInsert S u.1 u.2)) =
        dictExtend (dictInsert S u.1 u.2) U' := rfl
    rw [this, ih, mem_dkeys_dictInsert]
    simp only [dkeys, List.map_cons, List.mem_cons]
    tauto

theorem dlookup_dictExtend_not_mem (S U : Dict) (k : Str)
    (h : ¬ k ∈ dkeys U) : dlookup k (dictExtend S U) = dlookup k S := by
  induction U generalizing S with
  | nil => rfl
  | cons u U' ih =>
    rw [dictExtend, List.foldl_cons]
    have hstep : (U'.foldl (fun acc p => dictInsert acc p.1 p.2) (dictInsert S u.1 u.2)) =
        dictExtend (dictInsert S u.1 u.2) U' := rfl
    simp only [dkeys, List.map_cons, List.mem_cons] at h
    push_neg at h
    rw [hstep, ih _ (by simpa [dkeys] using h.2), dlookup_dictInsert_ne]
    exact h.1

theorem dlookup_dictExtend_mem (S U : Dict) (k : Str)
    (hU : (dkeys U).Nodup) (h : k ∈ dkeys U) :
    dlookup k (dictExtend S U) = dlookup k U := by
  induction U generalizing S with
  | nil => simp [dkeys] at h
  | cons u U' ih =>
    rw [dictExtend, List.foldl_cons]
    have hstep : (U'.foldl (fun acc p => dictInsert acc p.1 p.2) (dictInsert S u.1 u.2)) =
        dictExtend (dictInsert S u.1 u.2) U' := rfl
    rw [hstep]
    simp only [dkeys, List.map_cons, List.nodup_cons] at hU
    simp only [dkeys, List.map_cons, List.mem_cons] at h
    rcases h with rfl | hmem
    · rw [dlookup_dictExtend_not_mem _ _ _ (by simpa [dkeys] using hU.1)]
      rw [dlookup_dictInsert_self, dlookup, if_pos rfl]
    · have hne : ¬ u.1 = k := fun he => hU.1 (he ▸ hmem)
      rw [ih _ (by simpa [dkeys] using hU.2) hmem, dlookup, if_neg hne]

/-! ## Sanitiser lemmas -/

theorem occursIn_stripQuotesCoder (p₀ q₀ : Char) (ps qs pat : Str)
    (hpat : pat = p₀ :: ps) (hrev : pat.reverse = q₀ :: qs)
    (hd1 : ¬ p₀ = '"') (hd2 : ¬ q₀ = '"') (hs1 : ¬ p₀ = '\'') (hs2 : ¬ q₀ = '\'')
    (t : Str) (h : occursIn pat t) : occursIn pat (stripQuotesCoder t) := by
  rw [stripQuotesCoder]
  by_cases hd : (startsWithCh '"' t && endsWithCh '"' t) = true
  · rw [if_pos hd]
    obtain ⟨h1, h2⟩ := Bool.and_eq_true_iff.mp hd
    exact occursIn_strip1 '"' '"' p₀ q₀ ps qs pat hpat hrev hd1 hd2 t h1 h2 h
  · rw [if_neg hd]
    by_cases hq : (startsWithCh '\'' t && endsWithCh '\'' t) = true
    · rw [if_pos hq]
      obtain ⟨h1, h2⟩ := Bool.and_eq_true_iff.mp hq
      exact occursIn_strip1 '\'' '\'' p₀ q₀ ps qs pat hpat hrev hs1 hs2 t h1 h2 h
    · rw [if_neg hq]
      exact h

theorem occursIn_stripQuotesTester (p₀ q₀ : Char) (ps qs pat : Str)
    (hpat : pat = p₀ :: ps) (hrev : pat.reverse = q₀ :: qs)
    (hd1 : ¬ p₀ = '"') (hd2 : ¬ q₀ = '"')
    (t : Str) (h : occursIn pat t) : occursIn pat (stripQuotesTester t) := by
  rw [stripQuotesTester]
  by_cases hd : (startsWithCh '"' t && endsWithCh '"' t) = true
  · rw [if_pos hd]
    obtain ⟨h1, h2⟩ := Bool.and_eq_true_iff.mp hd
    exact occursIn_strip1 '"' '"' p₀ q₀ ps qs pat hpat hrev hd1 hd2 t h1 h2 h
  · rw [if_neg hd]
    exact h

theorem occursIn_of_stripQuotesCoder (pat t : Str)
    (h : occursIn pat (stripQuotesCoder t)) : occursIn pat t := by
  rw [stripQuotesCoder] at h
  by_cases hd : (startsWithCh '"' t && endsWithCh '"' t) = true
  · rw [if_pos hd] at h
    exact occursIn_of_strip1 pat t h
  · rw [if_neg hd] at h
    by_cases hq : (startsWithCh '\'' t && endsWithCh '\'' t) = true
    · rw [if_pos hq] at h
      exact occursIn_of_strip1 pat t h
    · rwa [if_neg hq] at h

theorem occursIn_of_stripQuotesTester (pat t : Str)
    (h : occursIn pat (stripQuotesTester t)) : occursIn pat t := by
  rw [stripQuotesTester] at h
  by_cases hd : (startsWithCh '"' t && endsWithCh '"' t) = true
  · rw [if_pos hd] at h
    exact occursIn_of_strip1 pat t h
  · rwa [if_neg hd] at h

theorem fixNewlines_replace (t : Str) (h1 : occursIn escNL t)
    (h2 : ¬ occursIn [nlChar] t) :
    fixNewlines t = pyReplace2 '\\' 'n' nlChar t := by
  rw [fixNewlines, if_pos]
  rw [Bool.and_eq_true]
  refine ⟨(hasSub_iff _ _).mpr h1, ?_⟩
  rw [Bool.not_eq_true']
  exact (hasSub_false_iff _ _).mpr h2

theorem fixNewlines_id_of_nl (t : Str) (h : occursIn [nlChar] t) :
    fixNewlines t = t := by
  rw [fixNewlines, if_neg]
  rw [Bool.and_eq_true]
  rintro ⟨_, habs⟩
  rw [Bool.not_eq_true'] at habs
  exact (hasSub_false_iff _ _).mp habs h

theorem fixNewlines_id_of_no_esc (t : Str) (h : ¬ occursIn escNL t) :
    fixNewlines t = t := by
  rw [fixNewlines, if_neg]
  rw [Bool.and_eq_true]
  rintro ⟨habs, _⟩
  exact h ((hasSub_iff _ _).mp habs)

theorem unescQuotes_esc_yes (u : Str) (h : occursIn escNL u) :
    occursIn escNL (unescQuotes u) := by
  simp only [escNL] at h ⊢
  rw [unescQuotes]
  exact pyReplace2_preserves_yes '\\' '"' 'n' (by decide) (by decide) (by decide) _
    (pyReplace2_preserves_yes '\\' '\'' 'n' (by decide) (by decide) (by decide) u h)

theorem unescQuotes_esc_no (u : Str) (h : ¬ occursIn escNL u) :
    ¬ occursIn escNL (unescQuotes u) := by
  simp only [escNL] at h ⊢
  rw [unescQuotes]
  exact pyReplace2_preserves_no '\\' '"' 'n' (by decide) (by decide) _
    (pyReplace2_preserves_no '\\' '\'' 'n' (by decide) (by decide) u h)

theorem unescQuotes_nl_mem (u : Str) (h : nlChar ∈ u) :
    nlChar ∈ unescQuotes u := by
  rw [unescQuotes]
  exact mem_pyReplace2 '\\' '"' '"' nlChar (by decide) (by decide) _
    (mem_pyReplace2 '\\' '\'' '\'' nlChar (by decide) (by decide) u h)

theorem occursIn_strJoin (sep : Str) (xs : List Str) (a : Str) (h : a ∈ xs) :
    occursIn a (strJoin sep xs) := by
  induction xs with
  | nil => simp at h
  | cons x ys ih =>
    cases ys with
    | nil =>
      rcases List.mem_cons.mp h with rfl | h2
      · exact ⟨[], [], by simp [strJoin]⟩
      · simp at h2
    | cons y zs =>
      rcases List.mem_cons.mp h with rfl | h2
      · exact ⟨[], sep ++ strJoin sep (y :: zs), by simp [strJoin, List.append_assoc]⟩
      · obtain ⟨l, r, hl⟩ := ih h2
        exact ⟨x ++ sep ++ l, r, by simp [strJoin, hl, List.append_assoc]⟩

/-! ## Orchestrator run lemmas -/

theorem step_iter_mono (o : Oracles) (c : OrchConfig) :
    c.state.debug_iterations ≤ (step o c).state.debug_iterations := by
  cases hn : c.node
  case architect => simp [step, hn, applyArch]
  case coder => simp [step, hn, applyCoder]
  case tester => simp [step, hn, applyTester]
  case debugger =>
    simp only [step, hn, applyDbg]
    cases o.dbgResp c.dbgCalls with
    | ok content => simp [Debugger.debugger_agent]
    | error e => simp [Debugger.debugger_agent]
  case terminal => simp [step, hn]

theorem allFail_invariant (n : Nat) :
    ((run allFail n).node = Node.architect ∨ (run allFail n).node = Node.coder ∨
      (run allFail n).node = Node.tester)
    ∧ (run allFail n).state.debug_iterations = 0
    ∧ getPassed (run allFail n).state = false
    ∧ (run allFail n).calls = n
    ∧ (run allFail n).dbgCalls = 0 := by
  induction n with
  | zero => exact ⟨Or.inl rfl, rfl, rfl, rfl, rfl⟩
  | succ n ih =>
    obtain ⟨hnode, hiter, hpass, hcalls, hdbg⟩ := ih
    rw [run]
    rcases hnode with h | h | h
    · refine ⟨Or.inr (Or.inl ?_), ?_, ?_, ?_, ?_⟩
      · simp [step, h]
      · simp only [step, h]
        simpa [applyArch] using hiter
      · simp only [step, h]
        simpa [applyArch, getPassed] using hpass
      · simp [step, h, hcalls]
      · simp [step, h, hdbg]
    · refine ⟨Or.inr (Or.inr ?_), ?_, ?_, ?_, ?_⟩
      · simp [step, h]
      · simp only [step, h]
        simpa [applyCoder] using hiter
      · simp only [step, h]
        simpa [applyCoder, getPassed] using hpass
      · simp [step, h, hcalls]
      · simp [step, h, hdbg]
    · have e1 : allFail.testerResp ((run allFail n).testerCalls) = Except.error [] := rfl
      refine ⟨Or.inr (Or.inl ?_), ?_, ?_, ?_, ?_⟩
      · simp only [step, h, e1]
        simp [Tester.tester_agent, applyTester, check_test_results, getPassed,
          routeNode, hiter]
      · simp only [step, h, e1]
        simpa [Tester.tester_agent, applyTester] using hiter
      · simp only [step, h, e1]
        simp [Tester.tester_agent, applyTester, getPassed]
      · simp [step, h, hcalls]
      · simp [step, h, hdbg]

/-! ## Claim theorems -/

/-- C1: the spec claims that for every sequence of verdicts the orchestrator
reaches `TERMINATED` within `ceiling + 2 = 5` role invocations.  The code
violates this: `check_test_results` routes the first failure (and, since
only the debugger ever increments `debug_iterations`, every later failure
as well) back to the coder, which never increments the counter, so under
all-failing verdicts the run cycles coder → tester forever: after `n`
super-steps the node is still a live node, `n` node executions have
happened, the counter is still `0`, and the debugger has never run. -/
theorem C1_unbounded_role_invocations (n : Nat) :
    ((run allFail n).node = Node.architect ∨ (run allFail n).node = Node.coder ∨
      (run allFail n).node = Node.tester)
    ∧ (run allFail n).calls = n
    ∧ (run allFail n).state.debug_iterations = 0
    ∧ (run allFail n).dbgCalls = 0 := by
  obtain ⟨h1, h2, _, h4, h5⟩ := allFail_invariant n
  exact ⟨h1, h4, h2, h5⟩

/-- C3 counterexample: a complete repair cycle that leaves the iteration
counter unchanged.  After three super-steps (architect, coder, tester with
a failing verdict) the router has sent the run back to the coder; the
coder step completes the repair cycle and hands back to the tester, yet
`debug_iterations` is still `0` afterwards (and stays `0` after the next
verdict). -/
theorem C3_coder_cycle_no_increment :
    (run allFail 3).node = Node.coder
    ∧ (run allFail 3).state.debug_iterations = 0
    ∧ (run allFail 4).node = Node.tester
    ∧ (run allFail 4).state.debug_iterations = 0
    ∧ (run allFail 5).state.debug_iterations = 0 := by
  decide

/-- C3 (amended): `debug_iterations` never decreases across any super-step
and never decreases along a run; every debugger invocation increments it by
exactly one (with or without file changes, and also when its generation
call raises); but a repair cycle routed to the coder leaves it unchanged. -/
theorem C3_iteration_counter (o : Oracles) (c : OrchConfig) :
    c.state.debug_iterations ≤ (step o c).state.debug_iterations
    ∧ (step o { c with node := Node.debugger }).state.debug_iterations =
        c.state.debug_iterations + 1
    ∧ (step o { c with node := Node.coder }).state.debug_iterations =
        c.state.debug_iterations
    ∧ (∀ (resp : Except Str ParserInput) (s : GState),
        (Debugger.debugger_agent resp s).debug_iterations = s.debug_iterations + 1)
    ∧ (∀ n : Nat, (run o n).state.debug_iterations ≤
        (run o (n + 1)).state.debug_iterations) := by
  refine ⟨step_iter_mono o c, ?_, rfl, ?_, ?_⟩
  · simp only [step, applyDbg]
    cases o.dbgResp c.dbgCalls with
    | ok content => simp [Debugger.debugger_agent]
    | error e => simp [Debugger.debugger_agent]
  · intro resp s
    cases resp with
    | ok content => rfl
    | error e => rfl
  · intro n
    rw [run]
    exact step_iter_mono o (run o n)

/-- C4: the output extractor is a total function over every input shape
(plain string, list of fragments joined through `str`, arbitrary
stringified value) — it is defined by structural recursion with no failure
path — and it returns the empty map exactly when the text contains no
well-formed `<file path="...">...</file>` block (no position of the text
matches the block pattern); an empty result is a value, not an error. -/
theorem C4_extractor_total (t : ParserInput) :
    (Coder.parse_xml_output t = [] ↔
      ∀ i ≤ (coerce t).length, tryMatchAt ((coerce t).drop i) = none)
    ∧ ((Tester.parse_tester_output t).1 = [] ↔
      ∀ i ≤ (coerce t).length, tryMatchAt ((coerce t).drop i) = none) := by
  constructor
  · rw [Coder.parse_xml_output,
      foldl_dictInsert_nil_iff Coder.sanitize_content (findBlocks (coerce t)),
      findBlocks_eq_nil_iff]
  · simp only [Tester.parse_tester_output]
    rw [foldl_dictInsert_nil_iff Tester.sanitize_content (findBlocks (coerce t)),
      findBlocks_eq_nil_iff]

/-- C4 witness: a fragment-list input with no block yields the empty map. -/
theorem C4_extractor_total_witness : Coder.parse_xml_output egPlainText = [] :=
  (C4_extractor_total egPlainText).1.mpr (by decide)

/-- C6: the Artifact Store merge `{**base, **updates}` is the identity on
an empty update, its key set is the union of the two key sets, every key
of `updates` resolves to the update's content, and a key present only in
`base` keeps its content — no path is ever deleted. -/
theorem C6_merge_algebra (S U : Dict) (hU : (dkeys U).Nodup) :
    pyMerge S [] = S
    ∧ (∀ k, k ∈ dkeys (pyMerge S U) ↔ k ∈ dkeys S ∨ k ∈ dkeys U)
    ∧ (∀ k, k ∈ dkeys U → dlookup k (pyMerge S U) = dlookup k U)
    ∧ (∀ k, k ∈ dkeys S → ¬ k ∈ dkeys U → dlookup k (pyMerge S U) = dlookup k S)
    ∧ (∀ k, k ∈ dkeys S → k ∈ dkeys (pyMerge S U)) := by
  refine ⟨rfl, ?_, ?_, ?_, ?_⟩
  · intro k
    exact mem_dkeys_dictExtend S U k
  · intro k hk
    exact dlookup_dictExtend_mem S U k hU hk
  · intro k _ hk2
    exact dlookup_dictExtend_not_mem S U k hk2
  · intro k hk
    exact (mem_dkeys_dictExtend S U k).mpr (Or.inl hk)

/-- C6 witness: the merge algebra evaluated on concrete stores. -/
theorem C6_merge_algebra_witness :
    pyMerge egStoreS [] = egStoreS
    ∧ dlookup "a".data (pyMerge egStoreS egStoreU) = some "2".data
    ∧ dlookup "c".data (pyMerge egStoreS egStoreU) = some "3".data
    ∧ "b".data ∈ dkeys (pyMerge egStoreS egStoreU) := by
  have h := C6_merge_algebra egStoreS egStoreU (by decide)
  refine ⟨h.1, ?_, ?_, ?_⟩
  · rw [h.2.2.1 "a".data (by decide)]
    decide
  · rw [h.2.2.2.1 "c".data (by decide) (by decide)]
    decide
  · exact (h.2.1 "b".data).mpr (Or.inr (by decide))

/-- C9: when the architect's generation call raises, the agent returns the
fallback two-step plan (non-empty) and the default
python/fastapi/sqlite/sqlalchemy stack, records nothing in `errors`, and
the graph proceeds unconditionally from the architect node to the coder
(generation) node. -/
theorem C9_architect_fallback (e : Str) :
    (Architect.architect_agent (Except.error e)).plan = Architect.fallbackPlan
    ∧ Architect.fallbackPlan.length = 2
    ∧ (Architect.architect_agent (Except.error e)).tech_decisions = Architect.fallbackTech
    ∧ dlookup "language".data Architect.fallbackTech = some "python".data
    ∧ dlookup "framework".data Architect.fallbackTech = some "fastapi".data
    ∧ dlookup "database".data Architect.fallbackTech = some "sqlite".data
    ∧ dlookup "orm".data Architect.fallbackTech = some "sqlalchemy".data
    ∧ (∀ s : GState,
        (applyArch s (Architect.architect_agent (Except.error e))).errors = s.errors)
    ∧ (∀ (o : Oracles) (c : OrchConfig),
        (step o { c with node := Node.architect }).node = Node.coder) :=
  ⟨rfl, by decide, rfl, by decide, by decide, by decide, by decide,
    fun _ => rfl, fun _ _ => rfl⟩

/-- C10: when the debugger's generation call raises, the returned update
has no `files` key (the Artifact Store is untouched after applying it) and
carries `debug_iterations` incremented by exactly one. -/
theorem C10_debugger_exception (e : Str) (s : GState) :
    (Debugger.debugger_agent (Except.error e) s).files = none
    ∧ (Debugger.debugger_agent (Except.error e) s).debug_iterations =
        s.debug_iterations + 1
    ∧ (applyDbg s (Debugger.debugger_agent (Except.error e) s)).files = s.files
    ∧ (applyDbg s (Debugger.debugger_agent (Except.error e) s)).debug_iterations =
        s.debug_iterations + 1 :=
  ⟨rfl, rfl, rfl, rfl⟩

/-- C2 counterexample: the coder step does not merge — it replaces the
whole `files` channel with its freshly parsed output.  Starting from a
state whose store holds `keep.py`, a successful coder call that emits only
`new.py` produces a state in which `keep.py` is gone, although no update
ever addressed that path. -/
theorem C2_coder_replaces_files :
    dlookup "keep.py".data egState.files = some "k".data
    ∧ dlookup "keep.py".data
        (applyCoder egState (Coder.coder_agent (Except.ok egCoderText))).files = none
    ∧ "new.py".data ∈ dkeys
        (applyCoder egState (Coder.coder_agent (Except.ok egCoderText))).files := by
  decide

/-- C2 (amended): the debugger and tester steps merge their parsed output
over the existing store — every pre-existing path survives, and a path not
named by the update keeps its content — but the coder step replaces the
whole `files` map with exactly its parsed output, so paths written earlier
are lost when the coder is re-invoked unless it regenerates them. -/
theorem C2_files_merge_semantics (s : GState) (resp : ParserInput) (v : Bool × Str) :
    (∀ k, k ∈ dkeys s.files →
      k ∈ dkeys (applyDbg s (Debugger.debugger_agent (Except.ok resp) s)).files)
    ∧ (∀ k, ¬ k ∈ dkeys (Debugger.parse_debugger_output resp) →
      dlookup k (applyDbg s (Debugger.debugger_agent (Except.ok resp) s)).files =
        dlookup k s.files)
    ∧ (∀ k, k ∈ dkeys s.files →
      k ∈ dkeys (applyTester s
        (Tester.tester_agent (Except.ok resp) (Except.ok v) s)).files)
    ∧ (∀ k, ¬ k ∈ dkeys (Tester.parse_tester_output resp).1 →
      dlookup k (applyTester s
        (Tester.tester_agent (Except.ok resp) (Except.ok v) s)).files =
        dlookup k s.files)
    ∧ (applyCoder s (Coder.coder_agent (Except.ok resp))).files =
        Coder.parse_xml_output resp := by
  refine ⟨?_, ?_, ?_, ?_, rfl⟩
  · intro k hk
    exact (mem_dkeys_dictExtend s.files (Debugger.parse_debugger_output resp) k).mpr
      (Or.inl hk)
  · intro k hk
    exact dlookup_dictExtend_not_mem s.files (Debugger.parse_debugger_output resp) k hk
  · intro k hk
    exact (mem_dkeys_dictExtend s.files (Tester.parse_tester_output resp).1 k).mpr
      (Or.inl hk)
  · intro k hk
    exact dlookup_dictExtend_not_mem s.files (Tester.parse_tester_output resp).1 k hk

/-- C2 witness: the debugger and tester steps keep `keep.py` intact when
their update touches only other paths. -/
theorem C2_files_merge_semantics_witness :
    dlookup "keep.py".data
      (applyDbg egState (Debugger.debugger_agent (Except.ok egDbgText) egState)).files =
      some "k".data
    ∧ "keep.py".data ∈ dkeys
      (applyTester egState
        (Tester.tester_agent (Except.ok egDbgText) (Except.ok (true, [])) egState)).files := by
  have h := C2_files_merge_semantics egState egDbgText (true, [])
  constructor
  · rw [h.2.1 "keep.py".data (by decide)]
    decide
  · exact h.2.2.1 "keep.py".data (by decide)

theorem startsWithCh_of_ne (q q' : Char) (t : Str) (h : startsWithCh q t = true)
    (hne : ¬ q = q') : startsWithCh q' t = false := by
  cases t with
  | nil => simp [startsWithCh] at h
  | cons c r =>
    simp only [startsWithCh, decide_eq_true_eq] at h
    simp only [startsWithCh]
    rw [h]
    exact decide_eq_false hne

/-- C7 counterexample: the claim says wrapping curly quotes are stripped
and escaped quotes are unescaped, but both sanitisers leave curly-quoted
content fully intact, and the coder-side sanitiser performs no quote
unescaping at all. -/
theorem C7_curly_quotes_not_stripped :
    Tester.sanitize_content egCurly = egCurly
    ∧ Coder.sanitize_content egCurly = egCurly
    ∧ egCurly = '“' :: ("abc".data ++ ['”'])
    ∧ ¬ Tester.sanitize_content egCurly = "abc".data
    ∧ Coder.sanitize_content egEscQuote = egEscQuote
    ∧ ¬ Coder.sanitize_content egEscQuote = "ab'cd".data := by
  decide

/-- C7 (amended): the coder-side sanitiser strips exactly one layer of
wrapping straight double quotes, or else straight single quotes, and never
unescapes quotes; the tester-side sanitiser strips one layer of straight
double quotes only and then performs the two single-pass replacements of
escaped single and double quotes; curly quotes trigger no stripping in
either sanitiser. -/
theorem C7_quote_handling (c : Str) :
    (startsWithCh '"' (pyStrip c) = true → endsWithCh '"' (pyStrip c) = true →
      Coder.sanitize_content c = fixNewlines (strip1 (pyStrip c))
      ∧ Tester.sanitize_content c = unescQuotes (fixNewlines (strip1 (pyStrip c))))
    ∧ (startsWithCh '\'' (pyStrip c) = true → endsWithCh '\'' (pyStrip c) = true →
       startsWithCh '"' (pyStrip c) = false →
      Coder.sanitize_content c = fixNewlines (strip1 (pyStrip c))
      ∧ Tester.sanitize_content c = unescQuotes (fixNewlines (pyStrip c)))
    ∧ (startsWithCh '“' (pyStrip c) = true →
      Coder.sanitize_content c = fixNewlines (pyStrip c)
      ∧ Tester.sanitize_content c = unescQuotes (fixNewlines (pyStrip c)))
    ∧ (∀ u : Str, Tester.sanitize_content u =
        pyReplace2 '\\' '"' '"' (pyReplace2 '\\' '\'' '\''
          (fixNewlines (stripQuotesTester (pyStrip u))))) := by
  refine ⟨?_, ?_, ?_, fun _ => rfl⟩
  · intro h1 h2
    have hcond : (startsWithCh '"' (pyStrip c) && endsWithCh '"' (pyStrip c)) = true := by
      rw [Bool.and_eq_true]
      exact ⟨h1, h2⟩
    have hqC : stripQuotesCoder (pyStrip c) = strip1 (pyStrip c) := by
      rw [stripQuotesCoder, if_pos hcond]
    have hqT : stripQuotesTester (pyStrip c) = strip1 (pyStrip c) := by
      rw [stripQuotesTester, if_pos hcond]
    exact ⟨by rw [Coder.sanitize_content, hqC], by rw [Tester.sanitize_content, hqT]⟩
  · intro h1 h2 h3
    have hnd : ¬ (startsWithCh '"' (pyStrip c) && endsWithCh '"' (pyStrip c)) = true := by
      simp [h3]
    have hcond : (startsWithCh '\'' (pyStrip c) && endsWithCh '\'' (pyStrip c)) = true := by
      rw [Bool.and_eq_true]
      exact ⟨h1, h2⟩
    have hqC : stripQuotesCoder (pyStrip c) = strip1 (pyStrip c) := by
      rw [stripQuotesCoder, if_neg hnd, if_pos hcond]
    have hqT : stripQuotesTester (pyStrip c) = pyStrip c := by
      rw [stripQuotesTester, if_neg hnd]
    exact ⟨by rw [Coder.sanitize_content, hqC], by rw [Tester.sanitize_content, hqT]⟩
  · intro h1
    have hd : startsWithCh '"' (pyStrip c) = false :=
      startsWithCh_of_ne '“' '"' (pyStrip c) h1 (by decide)
    have hs : startsWithCh '\'' (pyStrip c) = false :=
      startsWithCh_of_ne '“' '\'' (pyStrip c) h1 (by decide)
    have hqC : stripQuotesCoder (pyStrip c) = pyStrip c := by
      rw [stripQuotesCoder, if_neg (by simp [hd]), if_neg (by simp [hs])]
    have hqT : stripQuotesTester (pyStrip c) = pyStrip c := by
      rw [stripQuotesTester, if_neg (by simp [hd])]
    exact ⟨by rw [Coder.sanitize_content, hqC], by rw [Tester.sanitize_content, hqT]⟩

/-- C7 witness: straight double quotes are stripped by both sanitisers,
straight single quotes only by the coder-side one. -/
theorem C7_quote_handling_witness :
    Coder.sanitize_content "\"hi\"".data = "hi".data
    ∧ Tester.sanitize_content "\"hi\"".data = "hi".data
    ∧ Coder.sanitize_content "'hi'".data = "hi".data
    ∧ Tester.sanitize_content "'hi'".data = "'hi'".data := by
  have h1 := (C7_quote_handling "\"hi\"".data).1 (by decide) (by decide)
  have h2 := (C7_quote_handling "'hi'".data).2.1 (by decide) (by decide) (by decide)
  exact ⟨by rw [h1.1]; decide, by rw [h1.2]; decide,
    by rw [h2.1]; decide, by rw [h2.2]; decide⟩

/-- C8: for any trimmed block content (extraction always hands the
sanitisers whitespace-trimmed content, first conjunct): if it contains the
two-character newline escape and no real newline, both sanitisers produce
content containing real newlines with no residual escape; if it already
contains a real newline, the newline-repair pass is skipped — the result
is just the quote-handling (and, tester-side, quote-unescaping) of the
content, with the newline escapes surviving untouched. -/
theorem C8_newline_repair (c : Str) (hc : pyStrip c = c) :
    (∀ t p ct : Str, (p, ct) ∈ findBlocks t → pyStrip ct = ct)
    ∧ (occursIn escNL c → ¬ occursIn [nlChar] c →
        occursIn [nlChar] (Coder.sanitize_content c)
        ∧ ¬ occursIn escNL (Coder.sanitize_content c)
        ∧ occursIn [nlChar] (Tester.sanitize_content c)
        ∧ ¬ occursIn escNL (Tester.sanitize_content c))
    ∧ (occursIn [nlChar] c →
        Coder.sanitize_content c = stripQuotesCoder c
        ∧ Tester.sanitize_content c = unescQuotes (stripQuotesTester c)
        ∧ (occursIn escNL c → occursIn escNL (Coder.sanitize_content c))
        ∧ (occursIn escNL c → occursIn escNL (Tester.sanitize_content c))) := by
  refine ⟨fun t p ct h => findBlocks_content t p ct h, ?_, ?_⟩
  · intro h1 h2
    have hescC : occursIn escNL (stripQuotesCoder c) :=
      occursIn_stripQuotesCoder '\\' 'n' ['n'] ['\\'] escNL rfl rfl
        (by decide) (by decide) (by decide) (by decide) c h1
    have hnlC : ¬ occursIn [nlChar] (stripQuotesCoder c) :=
      fun hx => h2 (occursIn_of_stripQuotesCoder [nlChar] c hx)
    have hsanC : Coder.sanitize_content c =
        pyReplace2 '\\' 'n' nlChar (stripQuotesCoder c) := by
      rw [Coder.sanitize_content, hc, fixNewlines_replace _ hescC hnlC]
    have hescT : occursIn escNL (stripQuotesTester c) :=
      occursIn_stripQuotesTester '\\' 'n' ['n'] ['\\'] escNL rfl rfl
        (by decide) (by decide) c h1
    have hnlT : ¬ occursIn [nlChar] (stripQuotesTester c) :=
      fun hx => h2 (occursIn_of_stripQuotesTester [nlChar] c hx)
    have hsanT : Tester.sanitize_content c =
        unescQuotes (pyReplace2 '\\' 'n' nlChar (stripQuotesTester c)) := by
      rw [Tester.sanitize_content, hc, fixNewlines_replace _ hescT hnlT]
    refine ⟨?_, ?_, ?_, ?_⟩
    · rw [hsanC, occursIn_singleton]
      exact pyReplace2_creates '\\' 'n' nlChar _ hescC
    · rw [hsanC]
      exact pyReplace2_no_residual '\\' 'n' nlChar (by decide) (by decide) _
    · rw [hsanT, occursIn_singleton]
      exact unescQuotes_nl_mem _ (pyReplace2_creates '\\' 'n' nlChar _ hescT)
    · rw [hsanT]
      exact unescQuotes_esc_no _
        (pyReplace2_no_residual '\\' 'n' nlChar (by decide) (by decide) _)
  · intro hnl
    have hnlC : occursIn [nlChar] (stripQuotesCoder c) :=
      occursIn_stripQuotesCoder nlChar nlChar [] [] [nlChar] rfl rfl
        (by decide) (by decide) (by decide) (by decide) c hnl
    have hnlT : occursIn [nlChar] (stripQuotesTester c) :=
      occursIn_stripQuotesTester nlChar nlChar [] [] [nlChar] rfl rfl
        (by decide) (by decide) c hnl
    have hsanC : Coder.sanitize_content c = stripQuotesCoder c := by
      rw [Coder.sanitize_content, hc, fixNewlines_id_of_nl _ hnlC]
    have hsanT : Tester.sanitize_content c = unescQuotes (stripQuotesTester c) := by
      rw [Tester.sanitize_content, hc, fixNewlines_id_of_nl _ hnlT]
    refine ⟨hsanC, hsanT, ?_, ?_⟩
    · intro hesc
      rw [hsanC]
      exact occursIn_stripQuotesCoder '\\' 'n' ['n'] ['\\'] escNL rfl rfl
        (by decide) (by decide) (by decide) (by decide) c hesc
    · intro hesc
      rw [hsanT]
      exact unescQuotes_esc_yes _
        (occursIn_stripQuotesTester '\\' 'n' ['n'] ['\\'] escNL rfl rfl
          (by decide) (by decide) c hesc)

/-- C8 witness: `a\nb` (escape, no real newline) gains a real newline; a
content with a real newline keeps its sanitisation down to pure quote
stripping. -/
theorem C8_newline_repair_witness :
    occursIn [nlChar] (Coder.sanitize_content egEscaped)
    ∧ Coder.sanitize_content "a\nb".data = stripQuotesCoder "a\nb".data := by
  have h := C8_newline_repair egEscaped (by decide)
  have h2 := C8_newline_repair "a\nb".data (by decide)
  have hesc : occursIn escNL egEscaped := (hasSub_iff _ _).mp (by decide)
  have hnl : ¬ occursIn [nlChar] egEscaped := (hasSub_false_iff _ _).mp (by decide)
  have hnl2 : occursIn [nlChar] ("a\nb".data) := (hasSub_iff _ _).mp (by decide)
  exact ⟨(h.2.1 hesc hnl).1, (h2.2.2 hnl2).1⟩

/-! ## Sandbox runner lemmas -/

theorem run_command_true_iff (o : ProcOutcome) :
    (run_command o).1 = true ↔ ∃ out, o = ProcOutcome.exit 0 out := by
  cases o with
  | exit code out =>
    constructor
    · intro h
      have hc : code = 0 := of_decide_eq_true h
      exact ⟨out, by rw [hc]⟩
    · rintro ⟨out', he⟩
      injection he with h1 h2
      show decide (code = 0) = true
      rw [h1]
      decide
  | raised msg =>
    apply iff_of_false
    · simp [run_command]
    · rintro ⟨out, h⟩
      cases h

theorem pythonDeps_fail (env : SandboxEnv) (framework : Str) (logs : List Str)
    (h : (run_command env.pipInstall).1 = false) :
    pythonDeps env framework logs = (false, strJoin [nlChar]
      (logs ++ ["--- Installing/Updating Dependencies ---".data] ++
        [(run_command env.pipInstall).2])) := by
  simp only [pythonDeps]
  rw [if_pos h]

theorem pythonDeps_ok (env : SandboxEnv) (framework : Str) (logs : List Str)
    (h : (run_command env.pipInstall).1 = true) :
    ∃ pre : List Str, pythonDeps env framework logs =
      ((run_command env.testRun).1,
        strJoin [nlChar] (pre ++ [(run_command env.testRun).2])) := by
  simp only [pythonDeps]
  rw [if_neg (by simp [h])]
  exact ⟨_, rfl⟩

theorem setup_python_verdict (env : SandboxEnv) (framework tsLanguage : Str)
    (hpy : hasSub "python".data (toLowerStr tsLanguage) = true) :
    (setup_and_run_tests env framework tsLanguage).1 = false ∨
    (setup_and_run_tests env framework tsLanguage).1 = (run_command env.testRun).1 := by
  by_cases hve : env.venvExists = false
  · by_cases hcf : (run_command env.venvCreate).1 = false
    · left
      simp only [setup_and_run_tests]
      rw [if_pos hpy, if_pos hve, if_pos hcf]
    · have hok : (run_command env.venvCreate).1 = true := by
        cases hb : (run_command env.venvCreate).1
        · exact absurd hb hcf
        · rfl
      have heq : setup_and_run_tests env framework tsLanguage =
          pythonDeps env framework
            ((["--- Creating Venv (First Run Only) ---".data] ++
              [(run_command env.venvCreate).2]) ++
              ["--- Upgrading Pip (First Run Only) ---".data]) := by
        simp only [setup_and_run_tests]
        rw [if_pos hpy, if_pos hve, if_neg (by simp [hok])]
      rw [heq]
      by_cases hpf : (run_command env.pipInstall).1 = false
      · left
        rw [pythonDeps_fail env framework _ hpf]
      · have hpo : (run_command env.pipInstall).1 = true := by
          cases hb : (run_command env.pipInstall).1
          · exact absurd hb hpf
          · rfl
        obtain ⟨pre, hp⟩ := pythonDeps_ok env framework _ hpo
        right
        rw [hp]
  · have heq : setup_and_run_tests env framework tsLanguage =
        pythonDeps env framework ["--- Venv exists, skipping creation ---".data] := by
      simp only [setup_and_run_tests]
      rw [if_pos hpy, if_neg hve]
    rw [heq]
    by_cases hpf : (run_command env.pipInstall).1 = false
    · left
      rw [pythonDeps_fail env framework _ hpf]
    · have hpo : (run_command env.pipInstall).1 = true := by
        cases hb : (run_command env.pipInstall).1
        · exact absurd hb hpf
        · rfl
      obtain ⟨pre, hp⟩ := pythonDeps_ok env framework _ hpo
      right
      rw [hp]

theorem setup_node_verdict (env : SandboxEnv) (framework tsLanguage : Str)
    (hpy : hasSub "python".data (toLowerStr tsLanguage) = false)
    (hnode : (hasSub "node".data (toLowerStr tsLanguage) ||
      hasSub "javascript".data (toLowerStr tsLanguage)) = true) :
    (setup_and_run_tests env framework tsLanguage).1 = false ∨
    (setup_and_run_tests env framework tsLanguage).1 = (run_command env.npmTest).1 := by
  simp only [setup_and_run_tests]
  rw [if_neg (by simp [hpy]), if_pos hnode]
  by_cases hnm : env.nodeModulesExist = false
  · rw [if_pos hnm]
    by_cases hni : (run_command env.npmInstall).1 = false
    · left
      rw [if_pos hni]
    · right
      rw [if_neg hni]
  · right
    rw [if_neg hnm]

/-- C5: every sandbox failure becomes a `passed = false` verdict carrying
the causing log content, nothing escapes as an exception to the graph
(`tester_agent` converts a raised sandbox exception into a failed verdict
whose output is the exception text), and a `true` verdict arises only from
the test command completing with exit code `0`. -/
theorem C5_sandbox_failures (env : SandboxEnv) (framework tsLanguage : Str) :
    ((setup_and_run_tests env framework tsLanguage).1 = true →
      (∃ out, env.testRun = ProcOutcome.exit 0 out) ∨
      (∃ out, env.npmTest = ProcOutcome.exit 0 out))
    ∧ (∀ o : ProcOutcome, (run_command o).1 = true ↔ ∃ out, o = ProcOutcome.exit 0 out)
    ∧ (hasSub "python".data (toLowerStr tsLanguage) = true →
        env.venvExists = false → (run_command env.venvCreate).1 = false →
        (setup_and_run_tests env framework tsLanguage).1 = false
        ∧ occursIn (run_command env.venvCreate).2
            (setup_and_run_tests env framework tsLanguage).2)
    ∧ (hasSub "python".data (toLowerStr tsLanguage) = true →
        (env.venvExists = true ∨ (run_command env.venvCreate).1 = true) →
        (run_command env.pipInstall).1 = false →
        (setup_and_run_tests env framework tsLanguage).1 = false
        ∧ occursIn (run_command env.pipInstall).2
            (setup_and_run_tests env framework tsLanguage).2)
    ∧ (hasSub "python".data (toLowerStr tsLanguage) = true →
        (env.venvExists = true ∨ (run_command env.venvCreate).1 = true) →
        (run_command env.pipInstall).1 = true →
        (setup_and_run_tests env framework tsLanguage).1 = (run_command env.testRun).1
        ∧ occursIn (run_command env.testRun).2
            (setup_and_run_tests env framework tsLanguage).2)
    ∧ (∀ (e : Str) (resp : Except Str ParserInput) (s : GState),
        (Tester.tester_agent resp (Except.error e) s).test_results.tests_passed = false)
    ∧ (∀ (e : Str) (resp : ParserInput) (s : GState),
        (Tester.tester_agent (Except.ok resp) (Except.error e) s).test_results.output = e)
    ∧ (∀ (resp : ParserInput) (b : Bool) (outp : Str) (s : GState),
        (Tester.tester_agent (Except.ok resp) (Except.ok (b, outp)) s).test_results.tests_passed = b
        ∧ (Tester.tester_agent (Except.ok resp) (Except.ok (b, outp)) s).test_results.output = outp) := by
  refine ⟨?_, run_command_true_iff, ?_, ?_, ?_, ?_, fun _ _ _ => rfl, fun _ _ _ _ => ⟨rfl, rfl⟩⟩
  · intro hsucc
    by_cases hpy : hasSub "python".data (toLowerStr tsLanguage) = true
    · left
      rcases setup_python_verdict env framework tsLanguage hpy with hf | hv
      · rw [hf] at hsucc
        cases hsucc
      · rw [hv] at hsucc
        exact (run_command_true_iff env.testRun).mp hsucc
    · have hpy' : hasSub "python".data (toLowerStr tsLanguage) = false :=
        Bool.eq_false_iff.mpr hpy
      by_cases hnode : (hasSub "node".data (toLowerStr tsLanguage) ||
          hasSub "javascript".data (toLowerStr tsLanguage)) = true
      · right
        rcases setup_node_verdict env framework tsLanguage hpy' hnode with hf | hv
        · rw [hf] at hsucc
          cases hsucc
        · rw [hv] at hsucc
          exact (run_command_true_iff env.npmTest).mp hsucc
      · exfalso
        have hfail : (setup_and_run_tests env framework tsLanguage).1 = false := by
          simp only [setup_and_run_tests]
          rw [if_neg (by simp [hpy']), if_neg hnode]
        rw [hfail] at hsucc
        cases hsucc
  · intro hpy hve hcf
    have heq : setup_and_run_tests env framework tsLanguage =
        (false, strJoin [nlChar] (["--- Creating Venv (First Run Only) ---".data] ++
          [(run_command env.venvCreate).2])) := by
      simp only [setup_and_run_tests]
      rw [if_pos hpy, if_pos hve, if_pos hcf]
    rw [heq]
    exact ⟨rfl, occursIn_strJoin _ _ _ (by simp)⟩
  · intro hpy hvenv hpf
    by_cases hve : env.venvExists = false
    · have hok : (run_command env.venvCreate).1 = true := by
        rcases hvenv with hv | hok
        · rw [hve] at hv
          cases hv
        · exact hok
      have heq : setup_and_run_tests env framework tsLanguage =
          pythonDeps env framework
            ((["--- Creating Venv (First Run Only) ---".data] ++
              [(run_command env.venvCreate).2]) ++
              ["--- Upgrading Pip (First Run Only) ---".data]) := by
        simp only [setup_and_run_tests]
        rw [if_pos hpy, if_pos hve, if_neg (by simp [hok])]
      rw [heq, pythonDeps_fail env framework _ hpf]
      exact ⟨rfl, occursIn_strJoin _ _ _ (by simp)⟩
    · have heq : setup_and_run_tests env framework tsLanguage =
          pythonDeps env framework ["--- Venv exists, skipping creation ---".data] := by
        simp only [setup_and_run_tests]
        rw [if_pos hpy, if_neg hve]
      rw [heq, pythonDeps_fail env framework _ hpf]
      exact ⟨rfl, occursIn_strJoin _ _ _ (by simp)⟩
  · intro hpy hvenv hpo
    by_cases hve : env.venvExists = false
    · have hok : (run_command env.venvCreate).1 = true := by
        rcases hvenv with hv | hok
        · rw [hve] at hv
          cases hv
        · exact hok
      have heq : setup_and_run_tests env framework tsLanguage =
          pythonDeps env framework
            ((["--- Creating Venv (First Run Only) ---".data] ++
              [(run_command env.venvCreate).2]) ++
              ["--- Upgrading Pip (First Run Only) ---".data]) := by
        simp only [setup_and_run_tests]
        rw [if_pos hpy, if_pos hve, if_neg (by simp [hok])]
      obtain ⟨pre, hp⟩ := pythonDeps_ok env framework
        ((["--- Creating Venv (First Run Only) ---".data] ++
          [(run_command env.venvCreate).2]) ++
          ["--- Upgrading Pip (First Run Only) ---".data]) hpo
      rw [heq, hp]
      exact ⟨rfl, occursIn_strJoin _ _ _ (by simp)⟩
    · have heq : setup_and_run_tests env framework tsLanguage =
          pythonDeps env framework ["--- Venv exists, skipping creation ---".data] := by
        simp only [setup_and_run_tests]
        rw [if_pos hpy, if_neg hve]
      obtain ⟨pre, hp⟩ := pythonDeps_ok env framework
        ["--- Venv exists, skipping creation ---".data] hpo
      rw [heq, hp]
      exact ⟨rfl, occursIn_strJoin _ _ _ (by simp)⟩
  · intro e resp s
    cases resp with
    | ok content => rfl
    | error e' => rfl

/-- C5 witness: a failing venv creation and a failing test command both
yield failed verdicts, the latter with the test output inside the log. -/
theorem C5_sandbox_failures_witness :
    (setup_and_run_tests egEnvVenvFail "pytest".data "python".data).1 = false
    ∧ (setup_and_run_tests egEnvTestFail "pytest".data "python".data).1 = false
    ∧ occursIn "1 failed".data
        (setup_and_run_tests egEnvTestFail "pytest".data "python".data).2 := by
  have h1 := C5_sandbox_failures egEnvVenvFail "pytest".data "python".data
  have h2 := C5_sandbox_failures egEnvTestFail "pytest".data "python".data
  refine ⟨(h1.2.2.1 (by decide) (by decide) (by decide)).1, ?_, ?_⟩
  · have hv := (h2.2.2.2.2.1 (by decide) (Or.inl (by decide)) (by decide)).1
    rw [hv]
    decide
  · exact (h2.2.2.2.2.1 (by decide) (Or.inl (by decide)) (by decide)).2

end AutoDev
